import Mathlib

/-!
Verification of the tiered product selection engine of UStartKit.

The repository contains several iterations of the engine:
* `src/unnamed/part_001` — the amazon-search edge function with the full
  essential/luxury/premium selection, fallback chains and backfill
  (identical selection code to the first serve block of
  `src/supabase/functions/product-types/index.ts`, lines 1–653);
* `src/supabase/functions/amazon-search/index.ts` — an earlier, simpler
  variant (rating-only bars, mid-index premium pick);
* the second serve block of `src/supabase/functions/product-types/index.ts`
  (lines 653–997) — a rewrite that assigns tiers by position in the
  price-sorted deduplicated pool ("V2" below);
* `src/unnamed/part_002` — a part_001-like variant with a different
  quality bar in `formatProduct`;
* `src/src/services/api.ts` — the client-side cross-category
  deduplication (`uniqueProductsMap`).

Every definition below is a direct shallow embedding of one of those
source functions; JavaScript numbers are modelled exactly as decimal
fractions (`JNum`, value `man / 10 ^ exp`, with prices extended by a
positive-infinity sentinel `PVal.inf` and `NaN` as `Option.none`), and
JavaScript strings as Lean `String`.  External collaborators that the
engine only threads through — the affiliate-link rewriter
(`addAffiliateTag`) and the OpenAI "reason for inclusion" text — do not
influence any selection decision, so the pipelines are parameterised by
them (`tagFn`, `reasonOf`); concrete instances are used for witnesses.
-/

namespace UStartKit

/-! ### Generic string helpers (JavaScript `includes`, `startsWith`, split) -/

/-- Boolean list-prefix test (JavaScript `String.startsWith` on char lists). -/
def startsWithL : List Char → List Char → Bool
  | _, [] => true
  | [], _ :: _ => false
  | a :: as, b :: bs => a == b && startsWithL as bs

/-- Substring containment on char lists (JavaScript `String.includes`). -/
def containsSubL : List Char → List Char → Bool
  | [], needle => needle.isEmpty
  | c :: t, needle => startsWithL (c :: t) needle || containsSubL t needle

/-- JavaScript `hay.includes(needle)`. -/
def strContainsSub (hay needle : String) : Bool :=
  containsSubL hay.toList needle.toList

/-- JavaScript `hay.startsWith(needle)`. -/
def strStartsWith (hay needle : String) : Bool :=
  startsWithL hay.toList needle.toList

/-- JavaScript `s.toLowerCase()` (ASCII case mapping, which covers every
string the engine manipulates); built on char lists because it must
evaluate inside the kernel. -/
def toLowerStr (s : String) : String :=
  ⟨s.toList.map Char.toLower⟩

/-- JavaScript `s.trim()`. -/
def trimStr (s : String) : String :=
  ⟨((s.toList.dropWhile Char.isWhitespace).reverse.dropWhile
      Char.isWhitespace).reverse⟩

/-! ### Exact decimal fractions

Every number the engine computes with (parsed prices, parsed ratings,
premium scores) is a finite decimal fraction, represented exactly as
`man / 10 ^ exp`.  All comparisons are integer comparisons after
cross-multiplication, so they agree with the rational value order
(`jval`, see `jle_iff` below); this mirrors exact IEEE semantics for the
magnitudes involved. -/

/-- A JavaScript number arising in the engine: the decimal fraction
`man / 10 ^ exp`. -/
structure JNum where
  man : Int
  exp : Nat
deriving DecidableEq

/-- Shorthand constructor. -/
def jn (m : Int) (e : Nat) : JNum := ⟨m, e⟩

/-- The rational value of a `JNum`. -/
def jval (a : JNum) : ℚ := (a.man : ℚ) / (10 : ℚ) ^ a.exp

/-- Value order `a <= b` by cross-multiplication. -/
def jle (a b : JNum) : Bool :=
  a.man * (10 : Int) ^ b.exp ≤ b.man * (10 : Int) ^ a.exp

/-- Value order `a < b`. -/
def jlt (a b : JNum) : Bool :=
  a.man * (10 : Int) ^ b.exp < b.man * (10 : Int) ^ a.exp

/-- Value equality. -/
def jeq (a b : JNum) : Bool :=
  a.man * (10 : Int) ^ b.exp = b.man * (10 : Int) ^ a.exp

/-- Negation. -/
def jneg (a : JNum) : JNum := ⟨-a.man, a.exp⟩

/-- Exact addition (common denominator). -/
def jadd (a b : JNum) : JNum :=
  ⟨a.man * (10 : Int) ^ b.exp + b.man * (10 : Int) ^ a.exp, a.exp + b.exp⟩

/-! ### JavaScript number parsing (`parseFloat`, `parseInt`)

`Option.none` stands for `NaN`.  The model covers sign, integer part and
decimal fraction; the exponent form (`1e3`) and special literals
(`Infinity`) never occur in the marketplace price/rating strings the
engine consumes and are not modelled. -/

/-- Numeric value of a digit character. -/
def digitVal (c : Char) : Nat := c.toNat - 48

/-- Split off the maximal leading run of digit characters. -/
def takeDigits : List Char → List Char × List Char
  | [] => ([], [])
  | c :: t =>
    if c.isDigit then
      let r := takeDigits t
      (c :: r.1, r.2)
    else ([], c :: t)

/-- Value of a digit string read in base 10. -/
def natOfDigits (ds : List Char) : Nat :=
  ds.foldl (fun a c => 10 * a + digitVal c) 0

/-- Unsigned decimal prefix: digits, optionally a point and more digits,
as the exact decimal fraction `⟨ip * 10 ^ |fp| + fp, |fp|⟩`.
Returns `none` when no digit is consumed (JavaScript `NaN`). -/
def parseUnsignedFloat (cs : List Char) : Option JNum :=
  let ip := takeDigits cs
  match ip.2 with
  | '.' :: r2 =>
    let fp := takeDigits r2
    if ip.1.isEmpty && fp.1.isEmpty then none
    else some ⟨(natOfDigits ip.1 * 10 ^ fp.1.length + natOfDigits fp.1 : Nat),
      fp.1.length⟩
  | _ => if ip.1.isEmpty then none else some ⟨(natOfDigits ip.1 : Nat), 0⟩

/-- Leading whitespace removal (both `parseFloat` and `parseInt` do this). -/
def dropWS (cs : List Char) : List Char := cs.dropWhile Char.isWhitespace

/-- JavaScript `parseFloat` (without exponent forms); `none` is `NaN`. -/
def jsParseFloat (s : String) : Option JNum :=
  match dropWS s.toList with
  | '-' :: cs => (parseUnsignedFloat cs).map jneg
  | '+' :: cs => parseUnsignedFloat cs
  | cs => parseUnsignedFloat cs

/-- JavaScript `parseInt(s, 10)`; `none` is `NaN`. -/
def jsParseInt (s : String) : Option Int :=
  match dropWS s.toList with
  | '-' :: cs =>
    let ds := takeDigits cs
    if ds.1.isEmpty then none else some (-(natOfDigits ds.1 : Int))
  | '+' :: cs =>
    let ds := takeDigits cs
    if ds.1.isEmpty then none else some (natOfDigits ds.1 : Int)
  | cs =>
    let ds := takeDigits cs
    if ds.1.isEmpty then none else some (natOfDigits ds.1 : Int)

/-- JavaScript `s.replace(/,/g, '')`. -/
def stripCommas (s : String) : String :=
  ⟨s.toList.filter (fun c => c ≠ ',')⟩

end UStartKit

namespace UStartKit

/-! ### Price values: JavaScript numbers extended with the `Infinity` sentinel -/

/-- A normalized price: a finite decimal fraction or the
positive-infinity sentinel that every `parsePrice` variant returns on
parse failure. -/
inductive PVal where
  | fin : JNum → PVal
  | inf : PVal
deriving DecidableEq

/-- JavaScript `a <= b` on normalized prices (with `Infinity <= Infinity`
true, matching the comparator semantics where `Infinity - Infinity` is
`NaN` and `NaN` is treated as `0` by `Array.prototype.sort`). -/
def ple : PVal → PVal → Bool
  | .fin a, .fin b => jle a b
  | .fin _, .inf => true
  | .inf, .fin _ => false
  | .inf, .inf => true

/-- JavaScript `a < b` on normalized prices. -/
def plt : PVal → PVal → Bool
  | .fin a, .fin b => jlt a b
  | .fin _, .inf => true
  | .inf, _ => false

/-- Multiplication by the luxury price-separation factor `1.2` (exactly
`12 / 10`; `Infinity * 1.2` is `Infinity`). -/
def pmulSep : PVal → PVal
  | .fin a => .fin ⟨a.man * 12, a.exp + 1⟩
  | .inf => .inf

/-- Rational value of a normalized price, with `⊤` for the sentinel. -/
def pval : PVal → WithTop ℚ
  | .fin a => (jval a : ℚ)
  | .inf => ⊤

/-! ### parsePrice, variant of part_001 / product-types v1

Source (part_001 lines 186–194):
the first match of the regex `[\$€£]?(\d{1,3}(?:[.,]\d{3})*(?:[.,]\d{2})?)`
is located, its group 1 is stripped of every character other than digits
and `.`, and the result is passed to `parseFloat`; missing text or no
match yields `Infinity`.  Since every part of the regex after the first
`\d{1,3}` is optional, the regex engine never backtracks, and a match
starts at a position exactly when a digit, or a currency symbol followed
by a digit, stands there; the functions below reproduce that greedy scan
directly. -/

/-- Currency symbols accepted by the price regex. -/
def isCurrency (c : Char) : Bool := c = '$' || c = '€' || c = '£'

/-- Separators accepted by the v1 regex (`[.,]`). -/
def isSepV1 (c : Char) : Bool := c = '.' || c = ','

/-- Greedy `\d{1,3}`: up to three leading digits. -/
def takeDigitsUpTo3 (cs : List Char) : List Char × List Char :=
  match cs with
  | c1 :: t1 =>
    if c1.isDigit then
      match t1 with
      | c2 :: t2 =>
        if c2.isDigit then
          match t2 with
          | c3 :: t3 =>
            if c3.isDigit then ([c1, c2, c3], t3) else ([c1, c2], c3 :: t3)
          | [] => ([c1, c2], [])
        else ([c1], c2 :: t2)
      | [] => ([c1], [])
    else ([], c1 :: t1)
  | [] => ([], [])

/-- Greedy `(?:[.,]\d{3})*` for the v1 regex. -/
def sepTriplesV1 : List Char → List Char × List Char
  | s :: d1 :: d2 :: d3 :: rest =>
    if isSepV1 s && d1.isDigit && d2.isDigit && d3.isDigit then
      let r := sepTriplesV1 rest
      (s :: d1 :: d2 :: d3 :: r.1, r.2)
    else ([], s :: d1 :: d2 :: d3 :: rest)
  | cs => ([], cs)

/-- Greedy `(?:[.,]\d{2})?` for the v1 regex. -/
def sepCentsV1 : List Char → List Char × List Char
  | s :: d1 :: d2 :: rest =>
    if isSepV1 s && d1.isDigit && d2.isDigit then ([s, d1, d2], rest)
    else ([], s :: d1 :: d2 :: rest)
  | cs => ([], cs)

/-- Group 1 of a v1 regex match anchored at the current position,
`none` when no match starts here. -/
def groupAtV1 : List Char → Option (List Char)
  | [] => none
  | c :: t =>
    let cs' := if isCurrency c then t else c :: t
    let ds := takeDigitsUpTo3 cs'
    if ds.1.isEmpty then none
    else
      let t3 := sepTriplesV1 ds.2
      let c2 := sepCentsV1 t3.2
      some (ds.1 ++ t3.1 ++ c2.1)

/-- Leftmost v1 regex match: scan positions left to right. -/
def firstGroupV1 : List Char → Option (List Char)
  | [] => none
  | c :: t =>
    match groupAtV1 (c :: t) with
    | some g => some g
    | none => firstGroupV1 t

/-- `parsePrice` of part_001 (identical in product-types v1 and part_002). -/
def parsePrice (priceStr : String) : PVal :=
  if priceStr = "" then .inf
  else
    match firstGroupV1 priceStr.toList with
    | none => .inf
    | some g =>
      let numStr := g.filter (fun c => c.isDigit || c = '.')
      match parseUnsignedFloat numStr with
      | none => .inf
      | some q => .fin q

/-! ### parsePrice, amazon-search variant

Source (amazon-search/index.ts lines 146–152): strip every character
other than digits and `.` from the whole string, then `parseFloat`. -/

/-- `parsePrice` of amazon-search/index.ts. -/
def parsePriceAS (priceStr : String) : PVal :=
  if priceStr = "" then .inf
  else
    let numStr := priceStr.toList.filter (fun c => c.isDigit || c = '.')
    match jsParseFloat ⟨numStr⟩ with
    | none => .inf
    | some q => .fin q

/-! ### parsePrice, product-types v2 variant

Source (product-types/index.ts lines 856–863): first match of
`[\$€£]?(\d{1,3}(?:,?\d{3})*(?:\.\d{2})?)`, commas removed from group 1,
then `parseFloat`. -/

/-- Greedy `(?:,?\d{3})*` for the v2 regex: an optional comma followed by
exactly three digits, repeated. -/
def triplesV2 : List Char → List Char × List Char
  | ',' :: d1 :: d2 :: d3 :: rest =>
    if d1.isDigit && d2.isDigit && d3.isDigit then
      let r := triplesV2 rest
      (',' :: d1 :: d2 :: d3 :: r.1, r.2)
    else ([], ',' :: d1 :: d2 :: d3 :: rest)
  | d1 :: d2 :: d3 :: rest =>
    if d1.isDigit && d2.isDigit && d3.isDigit then
      let r := triplesV2 rest
      (d1 :: d2 :: d3 :: r.1, r.2)
    else ([], d1 :: d2 :: d3 :: rest)
  | cs => ([], cs)

/-- Greedy `(?:\.\d{2})?` for the v2 regex. -/
def centsV2 : List Char → List Char × List Char
  | '.' :: d1 :: d2 :: rest =>
    if d1.isDigit && d2.isDigit then (['.', d1, d2], rest)
    else ([], '.' :: d1 :: d2 :: rest)
  | cs => ([], cs)

/-- Group 1 of a v2 regex match anchored at the current position. -/
def groupAtV2 : List Char → Option (List Char)
  | [] => none
  | c :: t =>
    let cs' := if isCurrency c then t else c :: t
    let ds := takeDigitsUpTo3 cs'
    if ds.1.isEmpty then none
    else
      let t3 := triplesV2 ds.2
      let c2 := centsV2 t3.2
      some (ds.1 ++ t3.1 ++ c2.1)

/-- Leftmost v2 regex match. -/
def firstGroupV2 : List Char → Option (List Char)
  | [] => none
  | c :: t =>
    match groupAtV2 (c :: t) with
    | some g => some g
    | none => firstGroupV2 t

/-- `parsePrice` of the product-types v2 serve block. -/
def parsePriceV2 (priceStr : String) : PVal :=
  if priceStr = "" then .inf
  else
    match firstGroupV2 priceStr.toList with
    | none => .inf
    | some g =>
      let numStr := g.filter (fun c => c ≠ ',')
      match jsParseFloat ⟨numStr⟩ with
      | none => .inf
      | some q => .fin q

end UStartKit

namespace UStartKit

/-! ### Data model -/

/-- A raw marketplace candidate record (interface `AmazonProduct`); JS
missing/empty fields are the empty string. -/
structure AmazonProduct where
  product_title : String
  product_photo : String
  product_price : String
  product_url : String
  product_star_rating : String
  product_num_ratings : String
deriving DecidableEq

/-- Tier tags. -/
inductive Tier where
  | essential
  | premium
  | luxury
deriving DecidableEq

/-- Display rank of a tier (`tierRank` in the final sort comparator). -/
def tierRank : Tier → Nat
  | .essential => 1
  | .premium => 2
  | .luxury => 3

/-- An output record (interface `FormattedProduct` of part_001 and
product-types). -/
structure FormattedProduct where
  name : String
  reasonForInclusion : String
  link : String
  image : String
  price : String
  rating : JNum
  reviews : Int
  tier : Tier
deriving DecidableEq

/-- An output record of the amazon-search variant, whose interface has a
`description` field instead of `reasonForInclusion`. -/
structure FormattedProductAS where
  name : String
  description : String
  link : String
  image : String
  price : String
  rating : JNum
  reviews : Int
  tier : Tier
deriving DecidableEq

/-- `parseFloat(p.product_star_rating)`: `none` is `NaN`. -/
def ratingQ (p : AmazonProduct) : Option JNum := jsParseFloat p.product_star_rating

/-- `parseFloat(p.product_star_rating) || 0` as used by every selection
loop: `NaN` (and a parsed `0`) collapse to `0`. -/
def ratingOr0 (p : AmazonProduct) : JNum := (ratingQ p).getD (jn 0 0)

/-- The quality bars compare the raw `parseFloat` result: `rating < c` is
false when the rating is `NaN`. -/
def ratingLt (p : AmazonProduct) (c : JNum) : Bool :=
  match ratingQ p with
  | none => false
  | some q => jlt q c

/-- `parseInt(String(p.product_num_ratings || '0').replace(/,/g, ''), 10) || 0`. -/
def reviewsOf (p : AmazonProduct) : Int :=
  let s := if p.product_num_ratings = "" then "0" else p.product_num_ratings
  match jsParseInt (stripCommas s) with
  | none => 0
  | some n => n

/-! ### Brand extraction (part_001 lines 196–231, identical in
product-types v1 lines 379–413) -/

/-- The known-brand dictionary. -/
def knownBrands : List String :=
  ["Sony", "Samsung", "Apple", "LG", "Microsoft", "Dell", "HP", "Lenovo", "Asus", "Acer",
   "KitchenAid", "Cuisinart", "OXO", "Ninja", "Instant Pot", "Keurig", "Breville", "Vitamix",
   "Logitech", "Anker", "Bose", "JBL", "Sennheiser", "Audio-Technica", "Razer", "Corsair",
   "Canon", "Nikon", "GoPro", "DJI", "Fujifilm", "Olympus",
   "Stanley", "DeWalt", "Craftsman", "Makita", "Bosch", "Milwaukee",
   "Nike", "Adidas", "Under Armour", "Puma", "Lululemon", "Patagonia", "The North Face",
   "Fisher-Price", "LEGO", "Hasbro", "Mattel", "Playmobil",
   "Amazon Basics", "Utopia Kitchen", "Simple Modern"]

/-- Stoplist of generic lead words for the first-token fallback. -/
def genericStarters : List String :=
  ["The", "All", "New", "For", "Pro", "Set", "Kit", "Pack", "Hot", "Top", "Best", "Big",
   "Eco", "Ultra", "Super", "Multi", "Heavy", "Duty", "Digital", "Analog", "Mini", "Smart",
   "Premium", "Luxury", "Essential", "Professional", "Beginner"]

/-- The dictionary test of `extractBrand`: the lower-cased title contains
the lower-cased brand followed by a space or a hyphen, or starts with it
followed by a space, or equals it outright.  Note the absence of any
boundary check on the left side and of a match for a brand standing at
the very end of the title. -/
def brandHit (titleLower : String) (brand : String) : Bool :=
  let bl := toLowerStr brand
  strContainsSub titleLower (bl ++ " ") || strContainsSub titleLower (bl ++ "-") ||
    strStartsWith titleLower (bl ++ " ") || titleLower == bl

/-- Split character class of `/[\s-]+/`. -/
def isSplitChar (c : Char) : Bool := c.isWhitespace || c = '-'

/-- JavaScript `title.split(/[\s-]+/)`: tokens between separator runs,
with an empty leading/trailing token when the string starts/ends with a
separator. -/
def splitWordsGo (prevSep : Bool) (acc : List Char) : List Char → List (List Char)
  | [] => [acc.reverse]
  | c :: t =>
    if isSplitChar c then
      if prevSep then splitWordsGo true [] t
      else acc.reverse :: splitWordsGo true [] t
    else splitWordsGo false (c :: acc) t

/-- JavaScript `title.split(/[\s-]+/)` (see `splitWordsGo`: a run of
separator characters closes one token, and the run's further separators
add nothing). -/
def splitWords (cs : List Char) : List (List Char) :=
  splitWordsGo false [] cs

/-- Regex `/^[A-Z0-9]+$/`. -/
def upperAlnumRe (w : List Char) : Bool :=
  !w.isEmpty && w.all (fun c => c.isUpper || c.isDigit)

/-- Regex `/^[A-Z][a-zA-Z0-9]+$/`. -/
def titleCaseRe (w : List Char) : Bool :=
  match w with
  | c :: rest => c.isUpper && !rest.isEmpty && rest.all Char.isAlphanum
  | [] => false

/-- `extractBrand` (part_001 lines 196–231). -/
def extractBrand (productTitle : String) : Option String :=
  if productTitle = "" then none
  else
    let titleLower := toLowerStr productTitle
    match knownBrands.find? (fun b => brandHit titleLower b) with
    | some b => some b
    | none =>
      match splitWords productTitle.toList with
      | [] => none
      | w :: _ =>
        if decide (w.length > 2) && (String.mk (w.map Char.toUpper) == String.mk w)
            && upperAlnumRe w then
          some (String.mk w)
        else if decide (w.length ≥ 3) && titleCaseRe w then
          if genericStarters.any
              (fun g => toLowerStr g == toLowerStr (String.mk w)) then none
          else some (String.mk w)
        else none

end UStartKit

namespace UStartKit

/-! ### Exclusion keyword lists -/

/-- Exclusion keywords of part_001 / product-types v1 / part_002
(part_001 lines 156–164). -/
def excludeKeywordsP1 : List String :=
  ["refurbished", "used", "renewed", "open box", "pre-owned",
   "replacement bulb", "spare tire", "repair kit", "parts for",
   "add-on content", "dlc", "accessory bundle", "kit only for",
   "subscription service", "digital code", "download card",
   "protection plan", "extended warranty", "insurance policy",
   "toy version", "play set model", "miniature",
   "sticker sheet", "decorative", "costume piece"]

/-- Exclusion keywords of amazon-search/index.ts (lines 112–122). -/
def excludeKeywordsAS : List String :=
  ["refurbished", "used", "renewed", "open box",
   "replacement", "spare", "repair", "parts",
   "addon", "add-on", "accessory pack", "kit only",
   "subscription", "digital", "download",
   "protection plan", "warranty", "insurance",
   "toy", "game", "play set",
   "book", "guide", "manual", "instruction",
   "sticker", "decoration", "costume"]

/-- Exclusion keywords of the product-types v2 serve block
(lines 799–833). -/
def excludeKeywordsV2 : List String :=
  ["refurbished", "used", "renewed", "open box", "pre-owned",
   "replacement", "parts for", "add-on", "dlc", "accessory",
   "kit for", "subscription", "digital code", "download",
   "protection plan", "warranty", "toy", "miniature", "sticker",
   "decorative", "costume", "bulk", "case of", "pack of", "bundle",
   "refill", "cartridge", "variety pack", "box of", "jar of",
   "set of", "pack", "count"]

/-- `excludeKeywords.some(keyword => title.includes(keyword))` for a given
list; the argument is the already lower-cased title. -/
def kwHit (kws : List String) (titleLower : String) : Bool :=
  kws.any (fun kw => strContainsSub titleLower kw)

/-! ### Bulk-pack regular expressions of the product-types v2 block
(lines 835–843):
`\b\d+\s*[-]?pack\b`, `\b\d+\s*count\b`, `\b\d+\s*pk\b`, `\b\d+\s*pcs\b`,
`\b\d+x\b`, `pack of \d+`.  The input is the already lower-cased title,
so the `i` flag has no effect.  `\b` is a transition between a word
character (`[A-Za-z0-9_]`) and a non-word character or the string edge.
Each pattern's quantifiers admit no useful backtracking (the character
classes of adjacent parts are disjoint), so a direct greedy scan is
equivalent to the regex search. -/

/-- Word character class `\w`. -/
def isWordChar (c : Char) : Bool := c.isAlphanum || c = '_'

/-- A `\b` boundary holds before a word character at the current position
when the previous character (if any) is not a word character. -/
def boundaryBefore (prev : Option Char) : Bool :=
  match prev with
  | none => true
  | some c => !isWordChar c

/-- A `\b` boundary holds after a word character when the next character
(if any) is not a word character. -/
def boundaryAfter (rest : List Char) : Bool :=
  match rest with
  | [] => true
  | c :: _ => !isWordChar c

/-- Tail after `\d+` at the current position, `none` when no digit
stands here. -/
def afterDigits1 (cs : List Char) : Option (List Char) :=
  let r := takeDigits cs
  if r.1.isEmpty then none else some r.2

/-- Match `\s*[-]?LIT\b` (used after `\d+` for the `pack`, `count`, `pk`,
`pcs` patterns; `hyph` says whether the optional hyphen is allowed). -/
def sepLit (hyph : Bool) (lit : List Char) (cs : List Char) : Bool :=
  let r1 := cs.dropWhile Char.isWhitespace
  let r2 := if hyph then (match r1 with
    | '-' :: t => t
    | _ => r1) else r1
  startsWithL r2 lit && boundaryAfter (r2.drop lit.length)

/-- Try the five `\b\d+...` bulk patterns at this position. -/
def bulkAtPos (prev : Option Char) (cs : List Char) : Bool :=
  boundaryBefore prev &&
    (match afterDigits1 cs with
     | none => false
     | some r =>
       sepLit true ['p', 'a', 'c', 'k'] r ||
       sepLit false ['c', 'o', 'u', 'n', 't'] r ||
       sepLit false ['p', 'k'] r ||
       sepLit false ['p', 'c', 's'] r ||
       (match r with
        | 'x' :: r2 => boundaryAfter r2
        | _ => false))

/-- Try `pack of \d+` at this position. -/
def packOfAtPos (cs : List Char) : Bool :=
  startsWithL cs ['p', 'a', 'c', 'k', ' ', 'o', 'f', ' '] &&
    (match cs.drop 8 with
     | c :: _ => c.isDigit
     | [] => false)

/-- Scan every position of the lower-cased title for a bulk-pack match
(`bulkRegex.some(regex => regex.test(title))`). -/
def bulkScan (prev : Option Char) : List Char → Bool
  | [] => false
  | c :: t =>
    bulkAtPos prev (c :: t) || packOfAtPos (c :: t) || bulkScan (some c) t

/-- True when the lower-cased title matches one of the v2 bulk-pack
patterns. -/
def bulkHit (titleLower : String) : Bool :=
  bulkScan none titleLower.toList

/-! ### formatProduct variants -/

/-- The field guard of part_001's `formatProduct` (line 148): every field
present (non-empty) and the url contains `amazon.com`. -/
def validFieldsP1 (p : AmazonProduct) : Bool :=
  p.product_title ≠ "" && p.product_photo ≠ "" && p.product_price ≠ "" &&
    p.product_url ≠ "" && strContainsSub p.product_url "amazon.com"

/-- `formatProduct` of part_001 (lines 147–184); `tagFn` is the
affiliate-link rewriter `addAffiliateTag`, `reason` the externally
generated reason text.  The quality bar rejects only when the parsed
rating is below `3.0` AND the review count is below `5`; a `NaN` rating
never satisfies `rating < 3.0`. -/
def formatProductP1 (tagFn : String → String) (p : AmazonProduct) (tier : Tier)
    (reason : String) : Option FormattedProduct :=
  if !validFieldsP1 p then none
  else
    let title := toLowerStr p.product_title
    if kwHit excludeKeywordsP1 title then none
    else if ratingLt p (jn 3 0) && decide (reviewsOf p < 5) then none
    else some
      { name := p.product_title
        reasonForInclusion := reason
        link := tagFn p.product_url
        image := p.product_photo
        price := p.product_price
        rating := (ratingQ p).getD (jn 0 0)
        reviews := reviewsOf p
        tier := tier }

/-- `formatProduct` of part_002 (lines 147–183): same fields and keyword
list as part_001, but the quality bars differ — the essential tier
additionally requires rating ≥ 3.5 or reviews ≥ 10, and any listing whose
parsed rating is below `3.0` is rejected outright, regardless of its
review count. -/
def formatProductP2 (tagFn : String → String) (p : AmazonProduct) (tier : Tier)
    (reason : String) : Option FormattedProduct :=
  if !validFieldsP1 p then none
  else
    let title := toLowerStr p.product_title
    if kwHit excludeKeywordsP1 title then none
    else if decide (tier = Tier.essential) && ratingLt p (jn 35 1)
        && decide (reviewsOf p < 10) then none
    else if ratingLt p (jn 3 0) then none
    else some
      { name := p.product_title
        reasonForInclusion := reason
        link := tagFn p.product_url
        image := p.product_photo
        price := p.product_price
        rating := (ratingQ p).getD (jn 0 0)
        reviews := reviewsOf p
        tier := tier }

/-- Largest index `i ≤ bound` with `cs[i] = ' '` (JavaScript
`lastIndexOf(' ', bound)`), as used by the amazon-search description
truncation. -/
def lastSpaceLE (cs : List Char) (bound : Nat) : Option Nat :=
  (List.range (bound + 1)).foldl
    (fun best i => if cs.get? i = some ' ' then some i else best) none

/-- The `description` truncation of amazon-search's `formatProduct`
(title cut at the last space before index 147 when longer than 150). -/
def truncDesc (t : String) : String :=
  if t.length > 150 then
    (match lastSpaceLE t.toList 147 with
     | some i => String.mk (t.toList.take i)
     | none => "") ++ "..."
  else t

/-- The field guard of amazon-search's `formatProduct` (line 104). -/
def validFieldsAS (p : AmazonProduct) : Bool :=
  p.product_title ≠ "" && p.product_photo ≠ "" && p.product_price ≠ "" &&
    strContainsSub p.product_url "amazon.com"

/-- `formatProduct` of amazon-search/index.ts (lines 103–143): quality
bar `rating < 3.5 && reviews < 10`; the record's rating is
`rating || 0`. -/
def formatProductAS (tagFn : String → String) (p : AmazonProduct) (tier : Tier) :
    Option FormattedProductAS :=
  if !validFieldsAS p then none
  else
    let title := toLowerStr p.product_title
    if kwHit excludeKeywordsAS title then none
    else if ratingLt p (jn 35 1) && decide (reviewsOf p < 10) then none
    else some
      { name := p.product_title
        description := truncDesc p.product_title
        link := tagFn p.product_url
        image := p.product_photo
        price := p.product_price
        rating := ratingOr0 p
        reviews := reviewsOf p
        tier := tier }

/-- The field guard of the v2 `formatProduct` (line 793): no marketplace
domain check, only presence of the four fields. -/
def validFieldsV2 (p : AmazonProduct) : Bool :=
  p.product_title ≠ "" && p.product_photo ≠ "" && p.product_price ≠ "" &&
    p.product_url ≠ ""

/-- `formatProduct` of the product-types v2 serve block (lines 792–855):
keyword list `excludeKeywordsV2`, the bulk-pack regexes, quality bar
`rating < 3.0 && reviews < 5`; the tier starts as `essential` and the
reason slot empty. -/
def formatProductV2 (tagFn : String → String) (p : AmazonProduct) :
    Option FormattedProduct :=
  if !validFieldsV2 p then none
  else
    let title := toLowerStr p.product_title
    if kwHit excludeKeywordsV2 title then none
    else if bulkHit title then none
    else if ratingLt p (jn 3 0) && decide (reviewsOf p < 5) then none
    else some
      { name := p.product_title
        reasonForInclusion := ""
        link := tagFn p.product_url
        image := p.product_photo
        price := p.product_price
        rating := (ratingQ p).getD (jn 0 0)
        reviews := reviewsOf p
        tier := Tier.essential }

end UStartKit

namespace UStartKit

/-! ### The part_001 tier selection pipeline (serve, lines 233–477)

The pipeline is parameterised by `tagFn` (the affiliate-link rewriter
`addAffiliateTag`, an external pure string transform) and `reasonOf`
(the externally produced reason text for a given product title); neither
influences which products are selected beyond `tagFn`'s role as the key
of the `usedProductLinks` set, exactly as in the source. -/

/-- Membership in the `usedProductLinks` set (modelled as a list of
links). -/
def usedHas (used : List String) (link : String) : Bool :=
  used.contains link

/-- The moderate quality bar of the essential selection
(`rating >= 3.5 && reviews >= 10`, both on the `|| 0` values). -/
def essentialBar (p : AmazonProduct) : Bool :=
  jle (jn 35 1) (ratingOr0 p) && decide (reviewsOf p ≥ 10)

/-- Essential selection (part_001 lines 296–308): first candidate in the
price-sorted pool meeting the moderate bar, else the first unused
candidate outright. -/
def pickEssential (tagFn : String → String) (used : List String)
    (pool : List AmazonProduct) : Option AmazonProduct :=
  match pool.find? (fun p =>
      !usedHas used (tagFn p.product_url) && essentialBar p) with
  | some p => some p
  | none => pool.find? (fun p => !usedHas used (tagFn p.product_url))

/-- The strict luxury bar (`rating >= 4.0 && reviews >= 25`). -/
def luxuryBar (p : AmazonProduct) : Bool :=
  jle (jn 4 0) (ratingOr0 p) && decide (reviewsOf p ≥ 25)

/-- The price-separation guard of the luxury scan: skip a candidate whose
price is at most `essential.price * 1.2` (never skips when no essential
exists). -/
def sepFail (eP : Option AmazonProduct) (p : AmazonProduct) : Bool :=
  match eP with
  | some e => ple (parsePrice p.product_price)
      (pmulSep (parsePrice e.product_price))
  | none => false

/-- One step of the strict luxury scan (part_001 lines 317–334),
iterating from the most expensive end (`rev` is the reversed pool) with
the tentative pick `tent`; a qualifying candidate sharing the anchor
brand breaks the loop immediately. -/
def luxStrictGo (tagFn : String → String) (used : List String)
    (eP : Option AmazonProduct) (eBrand : Option String) :
    List AmazonProduct → Option AmazonProduct → Option AmazonProduct
  | [], tent => tent
  | p :: rest, tent =>
    if usedHas used (tagFn p.product_url) then
      luxStrictGo tagFn used eP eBrand rest tent
    else if !luxuryBar p then luxStrictGo tagFn used eP eBrand rest tent
    else if sepFail eP p then luxStrictGo tagFn used eP eBrand rest tent
    else
      match eBrand, extractBrand p.product_title with
      | some eb, some cb =>
        if cb = eb then some p
        else luxStrictGo tagFn used eP eBrand rest
          (match tent with | some t => some t | none => some p)
      | _, _ => luxStrictGo tagFn used eP eBrand rest
          (match tent with | some t => some t | none => some p)

/-- The strict luxury scan over the price-sorted pool. -/
def luxStrict (tagFn : String → String) (used : List String)
    (eP : Option AmazonProduct) (eBrand : Option String)
    (pool : List AmazonProduct) : Option AmazonProduct :=
  luxStrictGo tagFn used eP eBrand pool.reverse none

/-- One step of the `bestFallbackLuxury` scan (part_001 lines 338–348):
keep the candidate with the strictly highest `|| 0` rating among unused
candidates separated from essential and rated at least `4.0`. -/
def luxFallbackGo (tagFn : String → String) (used : List String)
    (eP : Option AmazonProduct) :
    List AmazonProduct → Option AmazonProduct → Option AmazonProduct
  | [], best => best
  | p :: rest, best =>
    if usedHas used (tagFn p.product_url) then
      luxFallbackGo tagFn used eP rest best
    else if sepFail eP p then luxFallbackGo tagFn used eP rest best
    else if jle (jn 4 0) (ratingOr0 p) then
      match best with
      | none => luxFallbackGo tagFn used eP rest (some p)
      | some b =>
        if jlt (ratingOr0 b) (ratingOr0 p) then luxFallbackGo tagFn used eP rest (some p)
        else luxFallbackGo tagFn used eP rest (some b)
    else luxFallbackGo tagFn used eP rest best

/-- `bestFallbackLuxury` over the price-sorted pool. -/
def luxFallback (tagFn : String → String) (used : List String)
    (eP : Option AmazonProduct) (pool : List AmazonProduct) :
    Option AmazonProduct :=
  luxFallbackGo tagFn used eP pool.reverse none

/-- The absolute luxury fallback (part_001 line 351): the most expensive
unused candidate priced strictly above essential (`.pop()` of the
filtered, still price-sorted pool). -/
def luxAbsolute (tagFn : String → String) (used : List String)
    (eP : Option AmazonProduct) (pool : List AmazonProduct) :
    Option AmazonProduct :=
  (pool.filter (fun p =>
    !usedHas used (tagFn p.product_url) &&
      (match eP with
       | none => true
       | some e => plt (parsePrice e.product_price)
           (parsePrice p.product_price)))).getLast?

/-- Full luxury selection (part_001 lines 315–353): the strict scan,
replaced by `bestFallbackLuxury` (and as a last resort by the most
expensive candidate above essential) when the scan produced nothing or a
brand other than the anchor brand. -/
def luxSelect (tagFn : String → String) (used : List String)
    (eP : Option AmazonProduct) (eBrand : Option String)
    (pool : List AmazonProduct) : Option AmazonProduct :=
  let l0 := luxStrict tagFn used eP eBrand pool
  let enterFallback :=
    match l0, eBrand with
    | none, _ => true
    | some l, some eb => decide (extractBrand l.product_title ≠ some eb)
    | some _, none => false
  if enterFallback then
    match luxFallback tagFn used eP pool with
    | some b => some b
    | none =>
      match l0 with
      | none => luxAbsolute tagFn used eP pool
      | some l => some l
  else l0

/-- The premium price window (lines 373–376): the candidate must be
priced strictly above essential and strictly below luxury, for whichever
of the two exists. -/
def premPriceOk (eP lP : Option AmazonProduct) (p : AmazonProduct) : Bool :=
  (match eP with
   | some e => !ple (parsePrice p.product_price) (parsePrice e.product_price)
   | none => true) &&
  (match lP with
   | some l => !ple (parsePrice l.product_price) (parsePrice p.product_price)
   | none => true)

/-- Premium score: the `|| 0` rating plus `0.5` when the candidate shares
the anchor brand. -/
def premScore (eBrand : Option String) (p : AmazonProduct) : JNum :=
  jadd (ratingOr0 p)
    (match eBrand, extractBrand p.product_title with
     | some eb, some cb => if cb = eb then jn 5 1 else jn 0 0
     | _, _ => jn 0 0)

/-- The best-score accumulation of the premium loop (lines 366–390);
`best` starts as `none` with score `-1`, and a candidate replaces it only
with a strictly larger score. -/
def premLoop (eP lP : Option AmazonProduct) (eBrand : Option String) :
    List AmazonProduct → Option AmazonProduct → JNum → Option AmazonProduct
  | [], best, _ => best
  | p :: rest, best, bestScore =>
    if jlt (ratingOr0 p) (jn 38 1) || decide (reviewsOf p < 15) then
      premLoop eP lP eBrand rest best bestScore
    else if !premPriceOk eP lP p then premLoop eP lP eBrand rest best bestScore
    else if jlt bestScore (premScore eBrand p) then
      premLoop eP lP eBrand rest (some p) (premScore eBrand p)
    else premLoop eP lP eBrand rest best bestScore

/-- Descending-rating order used by the retry sort and the backfill sort
(comparator `(b.rating || 0) - (a.rating || 0)`). -/
def ratingDesc (a b : AmazonProduct) : Prop := jle (ratingOr0 b) (ratingOr0 a) = true

instance : DecidableRel ratingDesc := fun a b =>
  instDecidableEqBool (jle (ratingOr0 b) (ratingOr0 a)) true

/-- Full premium selection (lines 360–419): best-scoring candidate from
the pool of unused products; if essential and luxury both exist and the
pick violates the strict price hierarchy it is discarded and the
remaining candidates are retried in descending rating order under the
same price window and a rating-only bar. -/
def premSelect (tagFn : String → String) (eP lP : Option AmazonProduct)
    (eBrand : Option String) (pool2 : List AmazonProduct) :
    Option AmazonProduct :=
  match premLoop eP lP eBrand pool2 none (jn (-1) 0) with
  | none => none
  | some best =>
    let broken :=
      match eP, lP with
      | some e, some l =>
        ple (parsePrice best.product_price) (parsePrice e.product_price) ||
          ple (parsePrice l.product_price) (parsePrice best.product_price)
      | _, _ => false
    if !broken then some best
    else
      let others := pool2.filter (fun c => c.product_url ≠ best.product_url)
      let sorted := List.insertionSort ratingDesc others
      sorted.find? (fun p =>
        premPriceOk eP lP p && jle (jn 38 1) (ratingOr0 p))

/-- The three main-path tier selections of part_001, in source order:
essential (with the used-set still empty), luxury (with essential's link
used), premium (from the pool stripped of both used links). -/
def selTriple (tagFn : String → String) (pool : List AmazonProduct) :
    Option AmazonProduct × Option AmazonProduct × Option AmazonProduct :=
  let e := pickEssential tagFn [] pool
  let used1 := match e with
    | some p => [tagFn p.product_url]
    | none => []
  let eBrand := match e with
    | some p => extractBrand p.product_title
    | none => none
  let l := luxSelect tagFn used1 e eBrand pool
  let used2 := (match l with
    | some p => [tagFn p.product_url]
    | none => []) ++ used1
  let pool2 := pool.filter (fun p => !usedHas used2 (tagFn p.product_url))
  let prem := premSelect tagFn e l eBrand pool2
  (e, prem, l)

/-- Push one selected product through `formatProduct` (lines 422–436');
an unselected tier or a null formatting contributes nothing. -/
def pushFmt (tagFn reasonOf : String → String) (tier : Tier) :
    Option AmazonProduct → List FormattedProduct
  | some p =>
    match formatProductP1 tagFn p tier (reasonOf p.product_title) with
    | some f => [f]
    | none => []
  | none => []

/-- The output of the main selection path, in push order essential,
premium, luxury (lines 422–436). -/
def mainOutput (tagFn reasonOf : String → String)
    (pool : List AmazonProduct) : List FormattedProduct :=
  let t := selTriple tagFn pool
  pushFmt tagFn reasonOf Tier.essential t.1 ++
    pushFmt tagFn reasonOf Tier.premium t.2.1 ++
    pushFmt tagFn reasonOf Tier.luxury t.2.2

/-- The backfill loop over the fixed tier order (lines 447–460): for each
missing tier, shift the next fill candidate and push its formatting;
stop as soon as three records exist. -/
def backfillGo (tagFn reasonOf : String → String) :
    List Tier → List AmazonProduct → List FormattedProduct → List Tier →
      List FormattedProduct
  | [], _, acc, _ => acc
  | t :: ts, fill, acc, present =>
    if acc.length ≥ 3 then acc
    else if present.contains t then backfillGo tagFn reasonOf ts fill acc present
    else
      match fill with
      | [] => backfillGo tagFn reasonOf ts [] acc present
      | c :: fillRest =>
        match formatProductP1 tagFn c t (reasonOf c.product_title) with
        | some f =>
          backfillGo tagFn reasonOf ts fillRest (acc ++ [f]) (t :: present)
        | none => backfillGo tagFn reasonOf ts fillRest acc present

/-- The backfill stage (lines 439–461): entered only when fewer than two
records exist and unused candidates remain; fill candidates are the
unused suitable products in descending rating order. -/
def backfill (tagFn reasonOf : String → String) (pool : List AmazonProduct)
    (acc : List FormattedProduct) : List FormattedProduct :=
  if acc.length < 2 && pool.length > acc.length then
    let currentUrls := acc.map (fun f => f.link)
    let fill := List.insertionSort ratingDesc
      (pool.filter (fun p => !usedHas currentUrls (tagFn p.product_url)))
    backfillGo tagFn reasonOf [Tier.essential, Tier.premium, Tier.luxury]
      fill acc (acc.map (fun f => f.tier))
  else acc

/-- Ascending-price order on raw products (sort comparator
`parsePrice(a) - parsePrice(b)`, line 282). -/
def priceAsc (a b : AmazonProduct) : Prop :=
  ple (parsePrice a.product_price) (parsePrice b.product_price) = true

instance : DecidableRel priceAsc := fun a b =>
  instDecidableEqBool (ple (parsePrice a.product_price) (parsePrice b.product_price)) true

/-- The final display sort (lines 464–470): by tier rank, then by
normalized price. -/
def finalOrd (a b : FormattedProduct) : Prop :=
  (tierRank a.tier < tierRank b.tier ∨
    (tierRank a.tier = tierRank b.tier ∧
      ple (parsePrice a.price) (parsePrice b.price) = true))

instance : DecidableRel finalOrd := fun a b =>
  inferInstanceAs (Decidable (tierRank a.tier < tierRank b.tier ∨
    (tierRank a.tier = tierRank b.tier ∧
      ple (parsePrice a.price) (parsePrice b.price) = true)))

/-- The suitable pool of part_001 (lines 273–282): candidates with photo,
price and an amazon.com url that `formatProduct` accepts, sorted by
ascending normalized price. -/
def suitablePool (tagFn : String → String) (cand : List AmazonProduct) :
    List AmazonProduct :=
  let valid := cand.filter (fun p =>
    p.product_photo ≠ "" && p.product_price ≠ "" && p.product_url ≠ "" &&
      strContainsSub p.product_url "amazon.com")
  let ok := valid.filter (fun p =>
    (formatProductP1 tagFn p Tier.essential "").isSome)
  List.insertionSort priceAsc ok

/-- The whole part_001 selection pipeline from raw candidates to the
response body (lines 273–477). -/
def pipelineP1 (tagFn reasonOf : String → String)
    (cand : List AmazonProduct) : List FormattedProduct :=
  let pool := suitablePool tagFn cand
  if pool.isEmpty then []
  else
    List.insertionSort finalOrd
      (backfill tagFn reasonOf pool (mainOutput tagFn reasonOf pool))

end UStartKit

namespace UStartKit

/-! ### The amazon-search pipeline (amazon-search/index.ts, serve,
lines 155–298) -/

/-- JavaScript array indexing `arr[i]` with an `Int` index: out-of-range
(including negative) indices give `undefined`. -/
def getIdx (l : List AmazonProduct) (i : Int) : Option AmazonProduct :=
  if 0 ≤ i then l.get? i.toNat else none

/-- The mid-index premium probe of amazon-search (lines 245–252):
`suitable[mid + i] || suitable[mid - i]`, accepted when rated at least
`4.0` and unused. -/
def premProbeAS (tagFn : String → String) (used : List String)
    (suitable : List AmazonProduct) : Option AmazonProduct :=
  let mid : Int := (suitable.length : Int) / 2
  (List.range suitable.length).findSome? (fun i =>
    match (getIdx suitable (mid + i)).orElse
        (fun _ => getIdx suitable (mid - i)) with
    | some p =>
      if jle (jn 4 0) (ratingOr0 p) && !usedHas used (tagFn p.product_url) then
        some p
      else none
    | none => none)

/-- Push for the amazon-search variant: `if (formatted &&
!usedProductUrls.has(formatted.link)) { push; add }`. -/
def pushAS (tagFn : String → String) (tier : Tier)
    (sel : Option AmazonProduct) (acc : List FormattedProductAS)
    (used : List String) : List FormattedProductAS × List String :=
  match sel with
  | none => (acc, used)
  | some p =>
    match formatProductAS tagFn p tier with
    | none => (acc, used)
    | some f =>
      if usedHas used f.link then (acc, used)
      else (acc ++ [f], f.link :: used)

/-- One iteration of the tier-fill loop of amazon-search
(lines 279–292): fill a missing tier with the first unused suitable
product, then break out when three records exist. -/
def fillGoAS (tagFn : String → String) (suitable : List AmazonProduct) :
    List Tier → List FormattedProductAS → List String → List Tier →
      List FormattedProductAS
  | [], acc, _, _ => acc
  | t :: ts, acc, used, pop =>
    if pop.contains t then
      if acc.length ≥ 3 then acc else fillGoAS tagFn suitable ts acc used pop
    else
      match suitable.find? (fun p => !usedHas used (tagFn p.product_url)) with
      | none =>
        if acc.length ≥ 3 then acc else fillGoAS tagFn suitable ts acc used pop
      | some c =>
        match formatProductAS tagFn c t with
        | none =>
          if acc.length ≥ 3 then acc else fillGoAS tagFn suitable ts acc used pop
        | some f =>
          let acc' := acc ++ [f]
          if acc'.length ≥ 3 then acc'
          else fillGoAS tagFn suitable ts acc' (f.link :: used) (t :: pop)

/-- The amazon-search pipeline (serve, lines 155–298): price-sorted
suitable pool; essential is the first candidate rated at least `3.8`;
luxury the most expensive rated at least `4.2`, else the most expensive
outright; premium probes outward from the middle index for a rating of
at least `4.0`, else takes the first unused candidate; when nothing at
all was selected the pool is re-sorted by descending rating in place and
its best-rated head is pushed as essential; finally missing tiers are
filled with the first unused candidates. -/
def pipelineAS (tagFn : String → String) (cand : List AmazonProduct) :
    List FormattedProductAS :=
  let suitable := List.insertionSort priceAsc
    (cand.filter (fun p =>
      (formatProductAS tagFn p Tier.essential).isSome && p.product_price ≠ ""))
  if suitable.isEmpty then []
  else
    let e := suitable.find? (fun p => jle (jn 38 1) (ratingOr0 p))
    let s1 := pushAS tagFn Tier.essential e [] []
    let l0 := suitable.reverse.find? (fun p =>
      jle (jn 42 1) (ratingOr0 p) && !usedHas s1.2 (tagFn p.product_url))
    let l := match l0 with
      | some p => some p
      | none => suitable.getLast?
    let s2 := pushAS tagFn Tier.luxury l s1.1 s1.2
    let pr0 := premProbeAS tagFn s2.2 suitable
    let pr := match pr0 with
      | some p => some p
      | none => suitable.find? (fun p => !usedHas s2.2 (tagFn p.product_url))
    let s3 := pushAS tagFn Tier.premium pr s2.1 s2.2
    let suitable2 := if s3.1.isEmpty then
        List.insertionSort ratingDesc suitable
      else suitable
    let acc4 := if s3.1.isEmpty then
        match suitable2.head? with
        | some b =>
          match formatProductAS tagFn b Tier.essential with
          | some f => s3.1 ++ [f]
          | none => s3.1
        | none => s3.1
      else s3.1
    if acc4.length < 3 && !acc4.isEmpty && suitable2.length > acc4.length then
      fillGoAS tagFn suitable2 [Tier.essential, Tier.premium, Tier.luxury]
        acc4 s3.2 (acc4.map (fun f => f.tier))
    else acc4

/-! ### The product-types v2 pipeline (product-types/index.ts,
lines 864–997) -/

/-- The core-term normalization of v2 (line 918):
`productType.toLowerCase().replace(/'s|s$/g, '')` — one left-to-right
pass removing every apostrophe-s pair and a bare `s` standing at the very
end. -/
def coreStripV2 : List Char → List Char
  | [] => []
  | c :: 's' :: rest =>
    if c = Char.ofNat 39 then coreStripV2 rest
    else c :: coreStripV2 ('s' :: rest)
  | ['s'] => []
  | c :: rest => c :: coreStripV2 rest

/-- JavaScript `s.split(' ')` (single-space separator, keeping empty
tokens). -/
def splitSpace : List Char → List (List Char)
  | [] => [[]]
  | c :: t =>
    if c = ' ' then [] :: splitSpace t
    else
      match splitSpace t with
      | w :: ws => (c :: w) :: ws
      | [] => [[c]]

/-- The core terms of v2 (lines 918–919): normalized product type,
trimmed, split on spaces, keeping tokens longer than two characters. -/
def coreTermsV2 (productType : String) : List String :=
  let core := trimStr (String.mk (coreStripV2 (toLowerStr productType).toList))
  (splitSpace core.toList).filterMap (fun w =>
    if w.length > 2 then some (String.mk w) else none)

/-- The `uniqueProductsMap` deduplication of v2 (lines 926–932): keep the
first record for each link, in encounter order. -/
def dedupeV2 (seen : List String) : List FormattedProduct → List FormattedProduct
  | [] => []
  | p :: rest =>
    if seen.contains p.link then dedupeV2 seen rest
    else p :: dedupeV2 (p.link :: seen) rest

/-- Ascending price order for v2 records (comparator
`parsePrice(a.price) - parsePrice(b.price)` with the v2 parser,
line 933). -/
def priceAscV2 (a b : FormattedProduct) : Prop :=
  ple (parsePriceV2 a.price) (parsePriceV2 b.price) = true

instance : DecidableRel priceAscV2 := fun a b =>
  instDecidableEqBool (ple (parsePriceV2 a.price) (parsePriceV2 b.price)) true

/-- The positional tier assignment of v2 (lines 934–974): cheapest as
essential, most expensive as luxury, the middle element of
`slice(1, -2)` (falling back to the second-cheapest) as premium; two
records give essential and premium, one gives essential only.  The
reason texts are filled in afterwards by the external collaborator and
are not part of the selection. -/
def assignTiersV2 (uniq : List FormattedProduct) : List FormattedProduct :=
  match uniq with
  | [] => []
  | [a] => [{ a with tier := Tier.essential }]
  | [a, b] => [{ a with tier := Tier.essential }, { b with tier := Tier.premium }]
  | a :: b :: c :: rest =>
    let all := a :: b :: c :: rest
    let lux := all.getLast (by simp)
    let middle := (all.drop 1).take (all.length - 3)
    let prem := match middle.get? (middle.length / 2) with
      | some m => m
      | none => b
    [{ a with tier := Tier.essential }, { prem with tier := Tier.premium },
      { lux with tier := Tier.luxury }]

/-- The product-types v2 pipeline (lines 864–997) from raw candidates
and the product-type label to the response body. -/
def pipelineV2 (tagFn : String → String) (productType : String)
    (cand : List AmazonProduct) : List FormattedProduct :=
  let suitable := cand.filterMap (fun p => formatProductV2 tagFn p)
  let core := coreTermsV2 productType
  let suitable2 :=
    if core.isEmpty then suitable
    else suitable.filter (fun f =>
      core.all (fun t => strContainsSub (toLowerStr f.name) t))
  let uniq := List.insertionSort priceAscV2 (dedupeV2 [] suitable2)
  assignTiersV2 uniq

/-! ### The client-side cross-category deduplication
(src/src/services/api.ts, lines 369–385) -/

/-- `uniqueProductsMap` of api.ts: records without a link are dropped,
and for each link only the first record across the concatenated
per-category results is kept, in encounter order. -/
def dedupeByLink (seen : List String) : List FormattedProduct → List FormattedProduct
  | [] => []
  | p :: rest =>
    if p.link = "" then dedupeByLink seen rest
    else if seen.contains p.link then dedupeByLink seen rest
    else p :: dedupeByLink (p.link :: seen) rest

end UStartKit

namespace UStartKit

/-! ### Specification-side definitions

These definitions formalise wording of the specification itself (not of
the code) and are used to compare the code's behaviour against the
spec's claims. -/

/-- Claim-side check: in an output list, whenever two records of distinct
tiers coexist, the record of the lower tier rank has normalized price at
most that of the higher rank (essential ≤ premium ≤ luxury for whichever
pairs are present). -/
def tierPricesOrdered (out : List FormattedProduct) : Bool :=
  out.all (fun a => out.all (fun b =>
    if tierRank a.tier < tierRank b.tier then
      ple (parsePrice a.price) (parsePrice b.price)
    else true))

/-- Claim-side check: no two records of an output share a link. -/
def linksNodup (links : List String) : Bool :=
  match links with
  | [] => true
  | l :: rest => !rest.contains l && linksNodup rest

/-- Claim-side notion of word-boundary containment: the needle occurs in
the haystack with no word character immediately before or after the
occurrence (both strings are compared lower-cased by the caller). -/
def wbAt (prev : Option Char) (hay needle : List Char) : Bool :=
  startsWithL hay needle && boundaryBefore prev &&
    boundaryAfter (hay.drop needle.length)

/-- Scan of `wbAt` over every position. -/
def wbScan (prev : Option Char) : List Char → List Char → Bool
  | [], needle => needle.isEmpty
  | c :: t, needle =>
    wbAt prev (c :: t) needle || wbScan (some c) t needle

/-- Word-boundary containment of `needle` in `hay`. -/
def wbContains (hay needle : String) : Bool :=
  wbScan none hay.toList needle.toList

/-- Identity instance of the affiliate-link rewriter collaborator, used
to instantiate the parameterised pipelines on concrete inputs (the
rewriter is specified only as a pure string transform, §6 of the spec). -/
def idTag : String → String := fun s => s

/-- Constant-empty instance of the external reason-text collaborator. -/
def noReason : String → String := fun _ => ""

/-- Concrete pools used by the concrete-input theorems below. -/
def poolC1 : List AmazonProduct :=
  [⟨"aaa", "ph", "$5", "https://amazon.com/a", "3.0", "50"⟩,
   ⟨"bbb", "ph", "$10", "https://amazon.com/b", "4.0", "100"⟩]

def poolC2 : List AmazonProduct :=
  [⟨"eee", "ph", "$10", "https://amazon.com/u1", "4.0", "100"⟩,
   ⟨"xxx", "ph", "$5", "https://amazon.com/u2", "3.0", "50"⟩,
   ⟨"yyy", "ph", "$5", "https://amazon.com/u2", "3.0", "50"⟩]

def poolC3 : List AmazonProduct :=
  [⟨"zzz", "ph", "$10", "https://amazon.com/z", "3.0", "50"⟩]

def poolC4 : List AmazonProduct :=
  [⟨"eee", "ph", "$10", "https://amazon.com/1", "4.0", "100"⟩,
   ⟨"xxx", "ph", "$11", "https://amazon.com/2", "4.5", "10"⟩,
   ⟨"yyy", "ph", "$20", "https://amazon.com/3", "3.0", "100"⟩]

def poolC5 : List AmazonProduct :=
  [⟨"dumbbell 2-pack", "ph", "$20", "https://amazon.com/a", "4.5", "100"⟩]

def poolW : List AmazonProduct :=
  [⟨"aaa", "ph", "$10", "https://amazon.com/1", "4.5", "50"⟩,
   ⟨"bbb", "ph", "$20", "https://amazon.com/2", "4.6", "60"⟩,
   ⟨"ccc", "ph", "$40", "https://amazon.com/3", "4.8", "100"⟩]

end UStartKit

namespace UStartKit

/-- Concrete listing for the part_002 quality-bar analysis: a middling
rating with an overwhelming review count. -/
def prodMidRating : AmazonProduct :=
  ⟨"zzz", "ph", "$10", "https://amazon.com/z", "2.5", "1000"⟩

/-- Concrete listing whose rating text does not parse as a number. -/
def prodNanRating : AmazonProduct :=
  ⟨"zzz", "ph", "$10", "https://amazon.com/z", "No rating", "x"⟩

/-! ## Lemmas

General facts about the numeric model, then the per-claim theorems. -/

theorem jle_iff (a b : JNum) : jle a b = true ↔ jval a ≤ jval b := by
  unfold jle jval
  rw [decide_eq_true_iff, div_le_div_iff (by positivity) (by positivity)]
  constructor
  · intro h
    exact_mod_cast h
  · intro h
    exact_mod_cast h

theorem jlt_iff (a b : JNum) : jlt a b = true ↔ jval a < jval b := by
  unfold jlt jval
  rw [decide_eq_true_iff, div_lt_div_iff (by positivity) (by positivity)]
  constructor
  · intro h
    exact_mod_cast h
  · intro h
    exact_mod_cast h

theorem jval_jadd (a b : JNum) : jval (jadd a b) = jval a + jval b := by
  unfold jval jadd
  push_cast
  rw [div_add_div _ _ (by positivity) (by positivity), pow_add]
  ring
theorem ple_iff (a b : PVal) : ple a b = true ↔ pval a ≤ pval b := by
  cases a <;> cases b <;>
    simp [ple, pval, jle_iff, WithTop.coe_le_coe, le_top]

theorem plt_iff (a b : PVal) : plt a b = true ↔ pval a < pval b := by
  cases a <;> cases b <;>
    simp [plt, pval, jlt_iff, WithTop.coe_lt_coe, WithTop.coe_lt_top]

theorem ple_refl (a : PVal) : ple a a = true := by
  rw [ple_iff]

theorem ple_trans {a b c : PVal} (h1 : ple a b = true) (h2 : ple b c = true) :
    ple a c = true := by
  rw [ple_iff] at h1 h2 ⊢
  exact le_trans h1 h2

theorem ple_total (a b : PVal) : ple a b = true ∨ ple b a = true := by
  rw [ple_iff, ple_iff]
  exact le_total _ _

theorem plt_of_not_ple {a b : PVal} (h : ¬ ple a b = true) : plt b a = true := by
  rw [ple_iff] at h
  rw [plt_iff]
  exact lt_of_not_le h

theorem plt_ple {a b : PVal} (h : plt a b = true) : ple a b = true := by
  rw [plt_iff] at h
  rw [ple_iff]
  exact le_of_lt h

theorem plt_of_ple_of_plt {a b c : PVal} (h1 : ple a b = true)
    (h2 : plt b c = true) : plt a c = true := by
  rw [ple_iff] at h1
  rw [plt_iff] at h2 ⊢
  exact lt_of_le_of_lt h1 h2

/-- For a nonnegative finite price (every parsed price is nonnegative),
the separation bound `p * 1.2` lies at or above `p`; `Infinity` maps to
itself. -/
theorem ple_pmulSep {j : JNum} (h : 0 ≤ j.man) :
    ple (.fin j) (pmulSep (.fin j)) = true := by
  simp only [pmulSep, ple, jle_iff, jval]
  rw [div_le_div_iff (by positivity) (by positivity)]
  push_cast
  rw [pow_succ]
  have hm : (0 : ℚ) ≤ (j.man : ℚ) := by exact_mod_cast h
  nlinarith [pow_nonneg (show (0:ℚ) ≤ 10 by norm_num) j.exp]


instance : IsTotal AmazonProduct priceAsc :=
  ⟨fun a b => ple_total _ _⟩

instance : IsTrans AmazonProduct priceAsc :=
  ⟨fun _ _ _ => ple_trans⟩

theorem parseUnsignedFloat_nonneg {cs : List Char} {j : JNum}
    (h : parseUnsignedFloat cs = some j) : 0 ≤ j.man := by
  unfold parseUnsignedFloat at h
  simp only [] at h
  split at h
  · split at h
    · exact absurd h (by simp)
    · cases h
      exact Int.ofNat_nonneg _
  · split at h
    · exact absurd h (by simp)
    · cases h
      exact Int.ofNat_nonneg _

theorem parsePrice_fin_nonneg {s : String} {j : JNum}
    (h : parsePrice s = .fin j) : 0 ≤ j.man := by
  unfold parsePrice at h
  split at h
  · exact absurd h (by simp)
  · split at h
    · exact absurd h (by simp)
    · simp only [] at h
      split at h
      · exact absurd h (by simp)
      · rename_i heq
        cases h
        exact parseUnsignedFloat_nonneg heq

end UStartKit

namespace UStartKit

/-- Closed form of the part_001 `formatProduct` success: the record is
exactly the formatted fields of the product. -/
theorem formatProductP1_some {tagFn : String → String} {p : AmazonProduct}
    {t : Tier} {reason : String} {r : FormattedProduct}
    (h : formatProductP1 tagFn p t reason = some r) :
    r = ⟨p.product_title, reason, tagFn p.product_url, p.product_photo,
      p.product_price, (ratingQ p).getD (jn 0 0), reviewsOf p, t⟩ := by
  unfold formatProductP1 at h
  split at h
  · exact absurd h (by simp)
  · simp only [] at h
    split at h
    · exact absurd h (by simp)
    · split at h
      · exact absurd h (by simp)
      · cases h
        rfl

/-- The part_001 `formatProduct` succeeds exactly when the fields are
valid, no exclusion keyword occurs and the quality bar passes; in
particular success does not depend on the tier or the reason text. -/
theorem formatProductP1_isSome (tagFn : String → String) (p : AmazonProduct)
    (t : Tier) (reason : String) :
    (formatProductP1 tagFn p t reason).isSome =
      (validFieldsP1 p &&
        !kwHit excludeKeywordsP1 (toLowerStr p.product_title) &&
        !(ratingLt p (jn 3 0) && decide (reviewsOf p < 5))) := by
  cases hv : validFieldsP1 p <;>
    cases hk : kwHit excludeKeywordsP1 (toLowerStr p.product_title) <;>
    cases hb : (ratingLt p (jn 3 0) && decide (reviewsOf p < 5)) <;>
    simp [formatProductP1, hv, hk, hb]

/-- Closed form of the amazon-search `formatProduct` success. -/
theorem formatProductAS_some {tagFn : String → String} {p : AmazonProduct}
    {t : Tier} {r : FormattedProductAS}
    (h : formatProductAS tagFn p t = some r) :
    r = ⟨p.product_title, truncDesc p.product_title, tagFn p.product_url,
      p.product_photo, p.product_price, ratingOr0 p, reviewsOf p, t⟩ := by
  unfold formatProductAS at h
  split at h
  · exact absurd h (by simp)
  · simp only [] at h
    split at h
    · exact absurd h (by simp)
    · split at h
      · exact absurd h (by simp)
      · cases h
        rfl

/-- Closed form of the v2 `formatProduct` success. -/
theorem formatProductV2_some {tagFn : String → String} {p : AmazonProduct}
    {r : FormattedProduct}
    (h : formatProductV2 tagFn p = some r) :
    r = ⟨p.product_title, "", tagFn p.product_url, p.product_photo,
      p.product_price, (ratingQ p).getD (jn 0 0), reviewsOf p,
      Tier.essential⟩ ∧
    kwHit excludeKeywordsV2 (toLowerStr p.product_title) = false ∧
    bulkHit (toLowerStr p.product_title) = false := by
  unfold formatProductV2 at h
  split at h
  · exact absurd h (by simp)
  · simp only [] at h
    split at h
    · exact absurd h (by simp)
    · split at h
      · exact absurd h (by simp)
      · split at h
        · exact absurd h (by simp)
        · cases h
          refine ⟨rfl, ?_, ?_⟩ <;> simp_all [Bool.not_eq_true]

end UStartKit

namespace UStartKit

/-- Claim C6, counterexample: in the part_002 variant of `formatProduct`
a listing with all fields valid, no exclusion keyword, and a review
count of 1000 — far above every review threshold — is still rejected,
purely because its parsed rating 2.5 lies below 3.0; so a rating below
the low threshold alone does cause rejection there, contradicting the
claim that both signals must be low. -/
theorem C6_counterexample :
    validFieldsP1 prodMidRating = true ∧
    kwHit excludeKeywordsP1 (toLowerStr prodMidRating.product_title) = false ∧
    reviewsOf prodMidRating = 1000 ∧
    formatProductP2 idTag prodMidRating Tier.premium "" = none := by
  decide

/-- Claim C6 (corrected): the minimum-confidence quality bar of the
part_001 `formatProduct` rejects exactly when the parsed rating is below
3.0 AND the review count is below 5, and the amazon-search variant
exactly when the rating is below 3.5 AND the review count is below 10 —
so in those two variants a listing whose review count meets the
threshold is never rejected by the bar; the part_002 variant, however,
rejects exactly when (for the essential tier) rating < 3.5 and
reviews < 10, or — regardless of review count — when the rating is
below 3.0. -/
theorem C6_quality_bar :
    (∀ (tagFn : String → String) (p : AmazonProduct) (t : Tier) (r : String),
      validFieldsP1 p = true →
      kwHit excludeKeywordsP1 (toLowerStr p.product_title) = false →
      (formatProductP1 tagFn p t r = none ↔
        (ratingLt p (jn 3 0) = true ∧ reviewsOf p < 5))) ∧
    (∀ (tagFn : String → String) (p : AmazonProduct) (t : Tier),
      validFieldsAS p = true →
      kwHit excludeKeywordsAS (toLowerStr p.product_title) = false →
      (formatProductAS tagFn p t = none ↔
        (ratingLt p (jn 35 1) = true ∧ reviewsOf p < 10))) ∧
    (∀ (tagFn : String → String) (p : AmazonProduct) (t : Tier) (r : String),
      validFieldsP1 p = true →
      kwHit excludeKeywordsP1 (toLowerStr p.product_title) = false →
      (formatProductP2 tagFn p t r = none ↔
        ((t = Tier.essential ∧ ratingLt p (jn 35 1) = true ∧
            reviewsOf p < 10) ∨
          ratingLt p (jn 3 0) = true))) := by
  refine ⟨fun tagFn p t r hv hk => ?_, fun tagFn p t hv hk => ?_,
    fun tagFn p t r hv hk => ?_⟩
  · cases hr : ratingLt p (jn 3 0) <;>
      rcases lt_or_le (reviewsOf p) 5 with hc | hc <;>
      simp [formatProductP1, hv, hk, hr, hc, not_le.mpr, not_lt.mpr]
  · cases hr : ratingLt p (jn 35 1) <;>
      rcases lt_or_le (reviewsOf p) 10 with hc | hc <;>
      simp [formatProductAS, hv, hk, hr, hc, not_le.mpr, not_lt.mpr]
  · cases ht : decide (t = Tier.essential) <;>
      cases hr35 : ratingLt p (jn 35 1) <;>
      cases hr3 : ratingLt p (jn 3 0) <;>
      rcases lt_or_le (reviewsOf p) 10 with hc | hc <;>
      simp_all [formatProductP2, hv, hk, not_le.mpr, not_lt.mpr]

/-- Claim C6, witness: the part_001 bar keeps a listing whose rating is
below 3.0 but whose review count is 1000. -/
theorem C6_witness :
    formatProductP1 idTag prodMidRating Tier.premium "" = none ↔
      (ratingLt prodMidRating (jn 3 0) = true ∧
        reviewsOf prodMidRating < 5) := by
  exact C6_quality_bar.1 idTag prodMidRating Tier.premium ""
    (by decide) (by decide)

end UStartKit

namespace UStartKit

/-- Claim C7 (confirmed): the part_001 selection pipeline is a total
function (the shallow embedding returns a value on every input, so "no
qualifying candidates" is an output, never an exception); an empty
candidate input produces the empty output, and more generally whenever
the filtered pool is empty the pipeline returns the empty list. -/
theorem C7_empty_input :
    (∀ (tagFn reasonOf : String → String),
      pipelineP1 tagFn reasonOf [] = []) ∧
    (∀ (tagFn reasonOf : String → String) (cand : List AmazonProduct),
      suitablePool tagFn cand = [] →
      pipelineP1 tagFn reasonOf cand = []) := by
  constructor
  · intro tagFn reasonOf
    rfl
  · intro tagFn reasonOf cand h
    unfold pipelineP1
    rw [h]
    rfl

/-- Claim C7, witness: a pool whose single candidate lacks a photo is
filtered out entirely and the pipeline returns the empty list. -/
theorem C7_witness :
    pipelineP1 idTag noReason
      [⟨"zzz", "", "$10", "https://amazon.com/z", "4.5", "50"⟩] = [] := by
  exact C7_empty_input.2 idTag noReason
    [⟨"zzz", "", "$10", "https://amazon.com/z", "4.5", "50"⟩] (by decide)

/-- Claim C10 (confirmed): a candidate whose rating text does not parse
is never rejected by the numeric quality bar (`NaN < threshold` is
false), and the produced record carries rating `0`; the record's review
count always equals the parsed review count, which is `0` when the
review text is absent or unparseable.  Both the part_001 and the
amazon-search variants are covered. -/
theorem C10_nan_rating :
    (∀ (tagFn : String → String) (p : AmazonProduct) (t : Tier) (r : String),
      validFieldsP1 p = true →
      kwHit excludeKeywordsP1 (toLowerStr p.product_title) = false →
      ratingQ p = none →
      ∃ rec, formatProductP1 tagFn p t r = some rec ∧ rec.rating = jn 0 0) ∧
    (∀ (tagFn : String → String) (p : AmazonProduct) (t : Tier) (r : String)
      (rec : FormattedProduct),
      formatProductP1 tagFn p t r = some rec → rec.reviews = reviewsOf p) ∧
    (∀ (tagFn : String → String) (p : AmazonProduct) (t : Tier),
      validFieldsAS p = true →
      kwHit excludeKeywordsAS (toLowerStr p.product_title) = false →
      ratingQ p = none →
      ∃ rec, formatProductAS tagFn p t = some rec ∧ rec.rating = jn 0 0) ∧
    (∀ p : AmazonProduct,
      jsParseInt (stripCommas p.product_num_ratings) = none →
      reviewsOf p = 0) ∧
    (∀ p : AmazonProduct, p.product_num_ratings = "" → reviewsOf p = 0) := by
  refine ⟨fun tagFn p t r hv hk hq => ?_, fun tagFn p t r rec h => ?_,
    fun tagFn p t hv hk hq => ?_, fun p h => ?_, fun p h => ?_⟩
  · have hbar : ratingLt p (jn 3 0) = false := by
      unfold ratingLt
      rw [hq]
    have hs := formatProductP1_isSome tagFn p t r
    rw [hv, hk, hbar] at hs
    simp only [Bool.true_and, Bool.not_false, Bool.false_and] at hs
    rcases Option.isSome_iff_exists.mp hs with ⟨rec, hrec⟩
    refine ⟨rec, hrec, ?_⟩
    have := formatProductP1_some hrec
    rw [this, hq]
    rfl
  · rw [formatProductP1_some h]
  · have hbar : ratingLt p (jn 35 1) = false := by
      unfold ratingLt
      rw [hq]
    have hs : (formatProductAS tagFn p t).isSome = true := by
      cases hx : formatProductAS tagFn p t
      · unfold formatProductAS at hx
        rw [hv] at hx
        simp only [Bool.not_true, Bool.false_eq_true, if_false] at hx
        rw [hk] at hx
        simp only [Bool.false_eq_true, if_false] at hx
        rw [hbar] at hx
        simp at hx
      · rfl
    rcases Option.isSome_iff_exists.mp hs with ⟨rec, hrec⟩
    refine ⟨rec, hrec, ?_⟩
    have := formatProductAS_some hrec
    rw [this]
    unfold ratingOr0
    rw [hq]
    rfl
  · unfold reviewsOf
    simp only []
    split
    · rfl
    · rename_i n heq
      by_cases hne : p.product_num_ratings = ""
      · rw [if_pos hne] at heq
        have h0 : jsParseInt (stripCommas "0") = some 0 := by decide
        rw [h0] at heq
        cases heq
        rfl
      · rw [if_neg hne, h] at heq
        cases heq
  · unfold reviewsOf
    simp only [h]
    rfl

end UStartKit

namespace UStartKit

/-- Claim C10, witness: a listing with rating text "No rating" and
review text "x" survives the bar and is emitted with rating 0 and
reviews 0. -/
theorem C10_witness :
    (∃ rec, formatProductP1 idTag prodNanRating Tier.essential "" = some rec ∧
      rec.rating = jn 0 0) ∧
    reviewsOf prodNanRating = 0 := by
  constructor
  · exact C10_nan_rating.1 idTag prodNanRating Tier.essential ""
      (by decide) (by decide) (by decide)
  · exact C10_nan_rating.2.2.2.1 prodNanRating (by decide)

/-- Claim C1, counterexample: on the two-candidate pool
`[$5 with rating 3.0, $10 with rating 4.0]` the part_001 pipeline
selects the `$10` listing as essential (the cheaper one misses the
moderate bar) and then backfills the `$5` listing into the premium tier,
so the returned tier list has price(essential) > price(premium). -/
theorem C1_counterexample :
    tierPricesOrdered (pipelineP1 idTag noReason poolC1) = false ∧
    pipelineP1 idTag noReason poolC1 ≠ [] := by
  decide

/-- Claim C2, counterexample: when the candidate pool repeats one
listing url (as marketplace search results can), the part_001 backfill
path emits two tier records with the same link: the `$10` candidate
becomes essential and the two `$5` twins (same url) are backfilled into
premium and luxury. -/
theorem C2_counterexample :
    linksNodup ((pipelineP1 idTag noReason poolC2).map
      (fun r => r.link)) = false ∧
    (pipelineP1 idTag noReason poolC2).length = 3 := by
  decide

/-- Claim C3, counterexample: in the amazon-search variant a pool whose
single candidate survives filtering (rating 3.0, 50 reviews) yields an
output without any essential record — the essential probe requires
rating ≥ 3.8, has no review-count arm and no cheapest-candidate
fallback, and the luxury fallback consumes the candidate instead. -/
theorem C3_counterexample :
    (formatProductAS idTag
      ⟨"zzz", "ph", "$10", "https://amazon.com/z", "3.0", "50"⟩
      Tier.essential).isSome = true ∧
    pipelineAS idTag poolC3 ≠ [] ∧
    (pipelineAS idTag poolC3).all
      (fun r => decide (r.tier ≠ Tier.essential)) = true := by
  decide

/-- Claim C5, counterexample: both the part_001 engine and the
amazon-search engine return a listing titled "dumbbell 2-pack" (it
matches the bulk-pack pattern `\d+\s*-?pack\b`), because only the v2
`formatProduct` checks bulk-pack patterns; neither engine's exclusion
list catches it. -/
theorem C5_counterexample :
    (pipelineP1 idTag noReason poolC5).any
      (fun r => bulkHit (toLowerStr r.name)) = true ∧
    pipelineP1 idTag noReason poolC5 ≠ [] ∧
    (pipelineAS idTag poolC5).any
      (fun r => bulkHit (toLowerStr r.name)) = true ∧
    pipelineAS idTag poolC5 ≠ [] := by
  decide

/-- Claim C8, counterexample: the amazon-search price normalizer strips
`$` and spaces from the whole range string, so "$19.99 - $29.99" becomes
"19.9929.99" and parses to 19.9929 — not the range's lower bound
19.99. -/
theorem C8_counterexample :
    parsePriceAS "$19.99 - $29.99" = .fin ⟨199929, 4⟩ ∧
    jeq ⟨199929, 4⟩ ⟨1999, 2⟩ = false := by
  decide

/-- Claim C9, counterexample: the title "Camera by Canon" contains the
dictionary brand "Canon" under genuine word-boundary containment, yet
`extractBrand` does not return it (its dictionary test requires the
brand to be followed by a space or hyphen) and instead falls through to
the first-token heuristic, returning "Camera". -/
theorem C9_counterexample :
    ("Canon" ∈ knownBrands) ∧
    wbContains "camera by canon" "canon" = true ∧
    extractBrand "Camera by Canon" = some "Camera" := by
  decide

end UStartKit

namespace UStartKit

/-- Claim C4, counterexample: essential is the `$10` candidate; the
strict luxury scan finds nothing (the `$11` candidate has only 10
reviews, the `$20` candidate rating 3.0); the claim then demands the
highest-rated candidate priced above essential — the `$11` one with
rating 4.5 — but the engine's first relaxation also requires rating
≥ 4.0 AND price > essential × 1.2, skips it, and the final fallback
returns the most expensive candidate with rating 3.0 instead. -/
theorem C4_counterexample :
    (selTriple idTag (suitablePool idTag poolC4)).1 =
      some ⟨"eee", "ph", "$10", "https://amazon.com/1", "4.0", "100"⟩ ∧
    luxStrict idTag ["https://amazon.com/1"]
      (some ⟨"eee", "ph", "$10", "https://amazon.com/1", "4.0", "100"⟩)
      none (suitablePool idTag poolC4) = none ∧
    (selTriple idTag (suitablePool idTag poolC4)).2.2 =
      some ⟨"yyy", "ph", "$20", "https://amazon.com/3", "3.0", "100"⟩ ∧
    (⟨"xxx", "ph", "$11", "https://amazon.com/2", "4.5", "10"⟩ :
      AmazonProduct) ∈ suitablePool idTag poolC4 ∧
    plt (parsePrice "$10") (parsePrice "$11") = true ∧
    jlt (ratingOr0 ⟨"yyy", "ph", "$20", "https://amazon.com/3", "3.0", "100"⟩)
      (ratingOr0 ⟨"xxx", "ph", "$11", "https://amazon.com/2", "4.5", "10"⟩) =
      true := by
  decide

end UStartKit

namespace UStartKit

theorem digit_ne_minus {c : Char} (h : c.isDigit = true) : c ≠ '-' := by
  intro hc
  subst hc
  exact absurd h (by decide)

theorem digit_ne_plus {c : Char} (h : c.isDigit = true) : c ≠ '+' := by
  intro hc
  subst hc
  exact absurd h (by decide)

theorem digit_ne_dot {c : Char} (h : c.isDigit = true) : c ≠ '.' := by
  intro hc
  subst hc
  exact absurd h (by decide)

theorem digit_not_ws {c : Char} (h : c.isDigit = true) :
    c.isWhitespace = false := by
  revert h
  unfold Char.isDigit Char.isWhitespace
  by_cases h1 : c = ' '
  · subst h1; decide
  · by_cases h2 : c = '\t'
    · subst h2; decide
    · by_cases h3 : c = '\r'
      · subst h3; decide
      · by_cases h4 : c = '\n'
        · subst h4; decide
        · simp [h1, h2, h3, h4]

/-- `takeDigits` splits an all-digit prefix off at a non-digit (or the
end). -/
theorem takeDigits_append {ds r : List Char} (hd : ∀ c ∈ ds, c.isDigit = true)
    (hr : r = [] ∨ ∃ c t, r = c :: t ∧ c.isDigit = false) :
    takeDigits (ds ++ r) = (ds, r) := by
  induction ds with
  | nil =>
    rcases hr with h | ⟨c, t, rfl, hc⟩
    · subst h
      rfl
    · simp [takeDigits, hc]
  | cons a as ih =>
    have ha : a.isDigit = true := hd a (by simp)
    have ih2 := ih (fun c hc => hd c (by simp [hc]))
    simp only [List.cons_append, takeDigits, ha, if_true]
    rw [show as.append r = as ++ r from rfl, ih2]

theorem takeDigits_nonDigit {r : List Char}
    (hr : r = [] ∨ ∃ c t, r = c :: t ∧ c.isDigit = false) :
    takeDigits r = ([], r) := by
  have h := @takeDigits_append [] r (by simp) hr
  simpa using h

/-- `takeDigitsUpTo3` consumes an all-digit list of one to three digits
exactly when a non-digit (or the end) follows. -/
theorem takeDigitsUpTo3_exact {ds r : List Char}
    (hd : ∀ c ∈ ds, c.isDigit = true) (hn : ds ≠ []) (h3 : ds.length ≤ 3)
    (hr : r = [] ∨ ∃ c t, r = c :: t ∧ c.isDigit = false) :
    takeDigitsUpTo3 (ds ++ r) = (ds, r) := by
  have hrcase : ∀ x t2, r = x :: t2 → x.isDigit = false := by
    rintro x t2 rfl
    rcases hr with h | ⟨c, t, heq, hc⟩
    · exact absurd h (by simp)
    · cases heq
      exact hc
  match ds, hn with
  | [a], _ =>
    have ha : a.isDigit = true := hd a (by simp)
    cases r with
    | nil => simp [takeDigitsUpTo3, ha]
    | cons x t2 =>
      have hx := hrcase x t2 rfl
      simp [takeDigitsUpTo3, ha, hx]
  | [a, b], _ =>
    have ha : a.isDigit = true := hd a (by simp)
    have hb : b.isDigit = true := hd b (by simp)
    cases r with
    | nil => simp [takeDigitsUpTo3, ha, hb]
    | cons x t2 =>
      have hx := hrcase x t2 rfl
      simp [takeDigitsUpTo3, ha, hb, hx]
  | [a, b, c], _ =>
    have ha : a.isDigit = true := hd a (by simp)
    have hb : b.isDigit = true := hd b (by simp)
    have hc : c.isDigit = true := hd c (by simp)
    cases r with
    | nil => simp [takeDigitsUpTo3, ha, hb, hc]
    | cons x t2 =>
      have hx := hrcase x t2 rfl
      simp [takeDigitsUpTo3, ha, hb, hc, hx]
  | a :: b :: c :: d :: t, _ => simp at h3

theorem takeDigitsUpTo3_nonDigit {r : List Char}
    (hr : r = [] ∨ ∃ c t, r = c :: t ∧ c.isDigit = false) :
    takeDigitsUpTo3 r = ([], r) := by
  rcases hr with h | ⟨c, t, rfl, hc⟩
  · subst h
    rfl
  · simp [takeDigitsUpTo3, hc]

end UStartKit

namespace UStartKit

theorem groupAtV1_none {cs : List Char} (h : ∀ c ∈ cs, c.isDigit = false) :
    groupAtV1 cs = none := by
  have hsub : ∀ (l : List Char), (∀ c ∈ l, c.isDigit = false) →
      takeDigitsUpTo3 l = ([], l) := by
    intro l hl
    apply takeDigitsUpTo3_nonDigit
    cases l with
    | nil => exact Or.inl rfl
    | cons x t => exact Or.inr ⟨x, t, rfl, hl x (by simp)⟩
  cases cs with
  | nil => rfl
  | cons c t =>
    simp only [groupAtV1]
    by_cases hc : isCurrency c = true
    · rw [if_pos hc, hsub t (fun d hd => h d (by simp [hd]))]
      rfl
    · rw [if_neg hc, hsub (c :: t) h]
      rfl

theorem firstGroupV1_none {cs : List Char} (h : ∀ c ∈ cs, c.isDigit = false) :
    firstGroupV1 cs = none := by
  induction cs with
  | nil => rfl
  | cons c t ih =>
    unfold firstGroupV1
    rw [groupAtV1_none h]
    exact ih (fun d hd => h d (by simp [hd]))

theorem groupAtV2_none {cs : List Char} (h : ∀ c ∈ cs, c.isDigit = false) :
    groupAtV2 cs = none := by
  have hsub : ∀ (l : List Char), (∀ c ∈ l, c.isDigit = false) →
      takeDigitsUpTo3 l = ([], l) := by
    intro l hl
    apply takeDigitsUpTo3_nonDigit
    cases l with
    | nil => exact Or.inl rfl
    | cons x t => exact Or.inr ⟨x, t, rfl, hl x (by simp)⟩
  cases cs with
  | nil => rfl
  | cons c t =>
    simp only [groupAtV2]
    by_cases hc : isCurrency c = true
    · rw [if_pos hc, hsub t (fun d hd => h d (by simp [hd]))]
      rfl
    · rw [if_neg hc, hsub (c :: t) h]
      rfl

theorem firstGroupV2_none {cs : List Char} (h : ∀ c ∈ cs, c.isDigit = false) :
    firstGroupV2 cs = none := by
  induction cs with
  | nil => rfl
  | cons c t ih =>
    unfold firstGroupV2
    rw [groupAtV2_none h]
    exact ih (fun d hd => h d (by simp [hd]))

theorem parseUnsignedFloat_dots {l : List Char} (h : ∀ c ∈ l, c = '.') :
    parseUnsignedFloat l = none := by
  unfold parseUnsignedFloat
  simp only []
  have h0 : takeDigits l = ([], l) := by
    apply takeDigits_nonDigit
    cases l with
    | nil => exact Or.inl rfl
    | cons x t =>
      refine Or.inr ⟨x, t, rfl, ?_⟩
      rw [h x (by simp)]
      decide
  rw [h0]
  cases l with
  | nil => rfl
  | cons x t =>
    have hx : x = '.' := h x (by simp)
    subst hx
    have h1 : takeDigits t = ([], t) := by
      apply takeDigits_nonDigit
      cases t with
      | nil => exact Or.inl rfl
      | cons y t2 =>
        refine Or.inr ⟨y, t2, rfl, ?_⟩
        rw [h y (by simp)]
        decide
    simp [h1]

theorem jsParseFloat_dots {l : List Char} (h : ∀ c ∈ l, c = '.') :
    jsParseFloat ⟨l⟩ = none := by
  unfold jsParseFloat
  have htl : (⟨l⟩ : String).toList = l := rfl
  rw [htl]
  have hws : dropWS l = l := by
    cases l with
    | nil => rfl
    | cons x t =>
      have hx : x = '.' := h x (by simp)
      subst hx
      simp [dropWS]
  rw [hws]
  cases l with
  | nil => rfl
  | cons x t =>
    have hx : x = '.' := h x (by simp)
    subst hx
    exact parseUnsignedFloat_dots h

end UStartKit

namespace UStartKit

theorem sepTriplesV1_stop {c1 c2 : Char} {tl : List Char}
    (htl : tl = [] ∨ ∃ x t2, tl = x :: t2 ∧ x.isDigit = false) :
    sepTriplesV1 ('.' :: c1 :: c2 :: tl) = ([], '.' :: c1 :: c2 :: tl) := by
  rcases htl with h | ⟨x, t2, rfl, hx⟩
  · subst h
    rfl
  · simp [sepTriplesV1, hx]

theorem sepCentsV1_take {c1 c2 : Char} {tl : List Char}
    (h1 : c1.isDigit = true) (h2 : c2.isDigit = true) :
    sepCentsV1 ('.' :: c1 :: c2 :: tl) = (['.', c1, c2], tl) := by
  simp [sepCentsV1, h1, h2, isSepV1]

theorem triplesV2_stop {c1 c2 : Char} {tl : List Char} :
    triplesV2 ('.' :: c1 :: c2 :: tl) = ([], '.' :: c1 :: c2 :: tl) := by
  cases tl with
  | nil => rfl
  | cons x t2 => simp [triplesV2]

theorem centsV2_take {c1 c2 : Char} {tl : List Char}
    (h1 : c1.isDigit = true) (h2 : c2.isDigit = true) :
    centsV2 ('.' :: c1 :: c2 :: tl) = (['.', c1, c2], tl) := by
  simp [centsV2, h1, h2]

theorem natOfDigits_pair (c1 c2 : Char) :
    natOfDigits [c1, c2] = 10 * digitVal c1 + digitVal c2 := by
  simp [natOfDigits, List.foldl]

theorem parseUnsignedFloat_decimal {ds : List Char} {c1 c2 : Char}
    (hd : ∀ c ∈ ds, c.isDigit = true) (hn : ds ≠ [])
    (h1 : c1.isDigit = true) (h2 : c2.isDigit = true) :
    parseUnsignedFloat (ds ++ '.' :: [c1, c2]) =
      some ⟨(natOfDigits ds * 100 + (10 * digitVal c1 + digitVal c2) : Nat),
        2⟩ := by
  unfold parseUnsignedFloat
  dsimp only
  rw [takeDigits_append hd (Or.inr ⟨'.', [c1, c2], rfl, by decide⟩)]
  have hfp : takeDigits [c1, c2] = ([c1, c2], []) := by
    have h := @takeDigits_append [c1, c2] []
      (by simp [h1, h2]) (Or.inl rfl)
    simpa using h
  have hip : ds.isEmpty = false := by
    cases ds with
    | nil => exact absurd rfl hn
    | cons a t => rfl
  split
  · rename_i r2 heq
    injection heq with ha hb
    subst hb
    rw [hfp]
    simp only [hip, Bool.false_and, Bool.false_eq_true, if_false,
      natOfDigits_pair]
    norm_num
  · rename_i hne
    exact absurd rfl (hne [c1, c2])

theorem jsParseFloat_digitHead {d : Char} {l : List Char}
    (hd : d.isDigit = true) :
    jsParseFloat ⟨d :: l⟩ = parseUnsignedFloat (d :: l) := by
  unfold jsParseFloat
  have htl : (⟨d :: l⟩ : String).toList = d :: l := rfl
  rw [htl]
  have hws : dropWS (d :: l) = d :: l := by
    simp [dropWS, digit_not_ws hd]
  rw [hws]
  split
  · rename_i heq
    injection heq with ha hb
    exact absurd ha (digit_ne_minus hd)
  · rename_i heq
    injection heq with ha hb
    exact absurd ha (digit_ne_plus hd)
  · rfl

end UStartKit

namespace UStartKit

theorem groupAtV1_range {ds : List Char} {c1 c2 : Char} {tl : List Char}
    (hd : ∀ c ∈ ds, c.isDigit = true) (hn : ds ≠ []) (h3 : ds.length ≤ 3)
    (h1 : c1.isDigit = true) (h2 : c2.isDigit = true)
    (htl : tl = [] ∨ ∃ x t2, tl = x :: t2 ∧ x.isDigit = false) :
    groupAtV1 ('$' :: (ds ++ '.' :: c1 :: c2 :: tl)) =
      some (ds ++ ['.', c1, c2]) := by
  simp only [groupAtV1]
  rw [if_pos (show isCurrency '$' = true from rfl)]
  rw [takeDigitsUpTo3_exact hd hn h3
    (Or.inr ⟨'.', c1 :: c2 :: tl, rfl, by decide⟩)]
  have hip : ds.isEmpty = false := by
    cases ds with
    | nil => exact absurd rfl hn
    | cons a t => rfl
  simp only [hip, Bool.false_eq_true, if_false,
    sepTriplesV1_stop htl, sepCentsV1_take h1 h2]
  simp

theorem groupAtV2_range {ds : List Char} {c1 c2 : Char} {tl : List Char}
    (hd : ∀ c ∈ ds, c.isDigit = true) (hn : ds ≠ []) (h3 : ds.length ≤ 3)
    (h1 : c1.isDigit = true) (h2 : c2.isDigit = true) :
    groupAtV2 ('$' :: (ds ++ '.' :: c1 :: c2 :: tl)) =
      some (ds ++ ['.', c1, c2]) := by
  simp only [groupAtV2]
  rw [if_pos (show isCurrency '$' = true from rfl)]
  rw [takeDigitsUpTo3_exact hd hn h3
    (Or.inr ⟨'.', c1 :: c2 :: tl, rfl, by decide⟩)]
  have hip : ds.isEmpty = false := by
    cases ds with
    | nil => exact absurd rfl hn
    | cons a t => rfl
  simp only [hip, Bool.false_eq_true, if_false,
    triplesV2_stop, centsV2_take h1 h2]
  simp

theorem filter_keepDecimal {ds : List Char} {c1 c2 : Char}
    (hd : ∀ c ∈ ds, c.isDigit = true)
    (h1 : c1.isDigit = true) (h2 : c2.isDigit = true) :
    (ds ++ ['.', c1, c2]).filter (fun c => c.isDigit || c = '.') =
      ds ++ ['.', c1, c2] := by
  rw [List.filter_eq_self]
  intro c hc
  rcases List.mem_append.mp hc with h | h
  · simp [hd c h]
  · simp only [List.mem_cons, List.not_mem_nil, or_false] at h
    rcases h with rfl | rfl | rfl
    · decide
    · simp [h1]
    · simp [h2]

theorem filter_noComma_keepDecimal {ds : List Char} {c1 c2 : Char}
    (hd : ∀ c ∈ ds, c.isDigit = true)
    (h1 : c1.isDigit = true) (h2 : c2.isDigit = true) :
    (ds ++ ['.', c1, c2]).filter (fun c => c ≠ ',') = ds ++ ['.', c1, c2] := by
  rw [List.filter_eq_self]
  intro c hc
  have hdig : c.isDigit = true ∨ c = '.' := by
    rcases List.mem_append.mp hc with h | h
    · exact Or.inl (hd c h)
    · simp only [List.mem_cons, List.not_mem_nil, or_false] at h
      rcases h with rfl | rfl | rfl
      · exact Or.inr rfl
      · exact Or.inl h1
      · exact Or.inl h2
  simp only [ne_eq, decide_not, Bool.not_eq_eq_eq_not, Bool.not_true,
    decide_eq_false_iff_not]
  intro hcc
  subst hcc
  rcases hdig with h | h
  · exact absurd h (by decide)
  · exact absurd h (by decide)

theorem mkString_ne_empty {c : Char} {l : List Char} :
    (⟨c :: l⟩ : String) ≠ "" := by
  intro h
  have := congrArg String.data h
  simp at this

end UStartKit

namespace UStartKit

/-- Claim C8 (corrected): every price normalizer is a total function
returning the positive-infinity sentinel for missing text and for text
containing no digit at all (so unparseable prices sort last); the
regex-based normalizers of part_001/product-types v1 and of
product-types v2 map a range string `"$d.cc…"` (dollars of one to three
digits, two cents digits, any tail not starting with another digit for
the v1 separator classes) to the exact value of the FIRST price — the
range's lower bound — regardless of what follows; the amazon-search
variant does not enjoy that property (see the counterexample). -/
theorem C8_price_normalizer :
    (parsePrice "" = .inf ∧ parsePriceAS "" = .inf ∧
      parsePriceV2 "" = .inf) ∧
    (∀ s : String, (∀ c ∈ s.toList, c.isDigit = false) →
      parsePrice s = .inf ∧ parsePriceAS s = .inf ∧ parsePriceV2 s = .inf) ∧
    (∀ (ds : List Char) (c1 c2 : Char) (tl : List Char),
      (∀ c ∈ ds, c.isDigit = true) → ds ≠ [] → ds.length ≤ 3 →
      c1.isDigit = true → c2.isDigit = true →
      (tl = [] ∨ ∃ x t2, tl = x :: t2 ∧ x.isDigit = false) →
      parsePrice ⟨'$' :: (ds ++ '.' :: c1 :: c2 :: tl)⟩ =
        .fin ⟨(natOfDigits ds * 100 +
          (10 * digitVal c1 + digitVal c2) : Nat), 2⟩) ∧
    (∀ (ds : List Char) (c1 c2 : Char) (tl : List Char),
      (∀ c ∈ ds, c.isDigit = true) → ds ≠ [] → ds.length ≤ 3 →
      c1.isDigit = true → c2.isDigit = true →
      parsePriceV2 ⟨'$' :: (ds ++ '.' :: c1 :: c2 :: tl)⟩ =
        .fin ⟨(natOfDigits ds * 100 +
          (10 * digitVal c1 + digitVal c2) : Nat), 2⟩) := by
  refine ⟨⟨rfl, rfl, rfl⟩, fun s hnd => ⟨?_, ?_, ?_⟩,
    fun ds c1 c2 tl hd hn h3 h1 h2 htl => ?_, fun ds c1 c2 tl hd hn h3 h1 h2 => ?_⟩
  · unfold parsePrice
    by_cases hs : s = ""
    · rw [if_pos hs]
    · rw [if_neg hs, firstGroupV1_none hnd]
  · unfold parsePriceAS
    by_cases hs : s = ""
    · rw [if_pos hs]
    · rw [if_neg hs]
      have hdots : ∀ c ∈ s.toList.filter (fun c => c.isDigit || c = '.'),
          c = '.' := by
        intro c hc
        rcases List.mem_filter.mp hc with ⟨hmem, hp⟩
        have := hnd c hmem
        simp [this] at hp
        exact hp
      simp only []
      rw [jsParseFloat_dots hdots]
  · unfold parsePriceV2
    by_cases hs : s = ""
    · rw [if_pos hs]
    · rw [if_neg hs, firstGroupV2_none hnd]
  · unfold parsePrice
    rw [if_neg mkString_ne_empty]
    have htll : (⟨'$' :: (ds ++ '.' :: c1 :: c2 :: tl)⟩ : String).toList =
      '$' :: (ds ++ '.' :: c1 :: c2 :: tl) := rfl
    rw [htll]
    unfold firstGroupV1
    rw [groupAtV1_range hd hn h3 h1 h2 htl]
    simp only []
    rw [filter_keepDecimal hd h1 h2]
    rw [show ds ++ ['.', c1, c2] = ds ++ '.' :: [c1, c2] from rfl]
    rw [parseUnsignedFloat_decimal hd hn h1 h2]
  · unfold parsePriceV2
    rw [if_neg mkString_ne_empty]
    have htll : (⟨'$' :: (ds ++ '.' :: c1 :: c2 :: tl)⟩ : String).toList =
      '$' :: (ds ++ '.' :: c1 :: c2 :: tl) := rfl
    rw [htll]
    unfold firstGroupV2
    rw [groupAtV2_range hd hn h3 h1 h2]
    simp only []
    rw [filter_noComma_keepDecimal hd h1 h2]
    have hhead : ∃ d dt, ds = d :: dt := by
      cases ds with
      | nil => exact absurd rfl hn
      | cons d dt => exact ⟨d, dt, rfl⟩
    rcases hhead with ⟨d, dt, rfl⟩
    rw [show (d :: dt) ++ ['.', c1, c2] = d :: (dt ++ '.' :: [c1, c2])
      from rfl]
    rw [jsParseFloat_digitHead (hd d (by simp))]
    rw [show d :: (dt ++ '.' :: [c1, c2]) = (d :: dt) ++ '.' :: [c1, c2]
      from rfl]
    rw [parseUnsignedFloat_decimal hd hn h1 h2]

/-- Claim C8, witness: the part_001 normalizer maps the concrete range
string "$19.99 - $29.99" to its lower bound 19.99, and returns the
sentinel for "N/A". -/
theorem C8_witness :
    parsePrice "$19.99 - $29.99" = .fin ⟨1999, 2⟩ ∧
    parsePrice "N/A" = .inf := by
  constructor
  · have h := C8_price_normalizer.2.2.1 ['1', '9'] '9' '9' (" - $29.99".toList)
      (by decide) (by decide) (by decide) (by decide) (by decide)
      (Or.inr ⟨' ', "- $29.99".toList, by decide, by decide⟩)
    have e1 : ("$19.99 - $29.99" : String) =
        ⟨'$' :: (['1', '9'] ++ '.' :: '9' :: '9' :: (" - $29.99".toList))⟩ := by
      decide
    rw [e1, h]
    decide
  · exact (C8_price_normalizer.2.1 "N/A" (by decide)).1

end UStartKit

namespace UStartKit

theorem upperOrDigit_toUpper {c : Char}
    (h : c.isUpper = true ∨ c.isDigit = true) : c.toUpper = c := by
  unfold Char.toUpper
  rcases h with h | h
  · unfold Char.isUpper at h
    simp only [Bool.and_eq_true, decide_eq_true_iff] at h
    have h90 : c.toNat ≤ 90 := by
      have := h.2
      exact_mod_cast this
    rw [if_neg]
    intro hcon
    omega
  · unfold Char.isDigit at h
    simp only [Bool.and_eq_true, decide_eq_true_iff] at h
    have h57 : c.toNat ≤ 57 := by
      have := h.2
      exact_mod_cast this
    rw [if_neg]
    intro hcon
    omega

theorem mapToUpper_self {w : List Char}
    (h : ∀ c ∈ w, c.isUpper = true ∨ c.isDigit = true) :
    w.map Char.toUpper = w := by
  induction w with
  | nil => rfl
  | cons c t ih =>
    simp only [List.map_cons, upperOrDigit_toUpper (h c (by simp)),
      List.cons.injEq, true_and]
    exact ih (fun d hd => h d (by simp [hd]))

/-- The all-caps first-token test of `extractBrand` holds exactly when
the token is longer than two characters and consists of capitals and
digits only. -/
theorem capsCond_iff (w : List Char) :
    (decide (w.length > 2) && (String.mk (w.map Char.toUpper) == String.mk w)
      && upperAlnumRe w) = true ↔
    (w.length > 2 ∧ ∀ c ∈ w, c.isUpper = true ∨ c.isDigit = true) := by
  constructor
  · intro h
    simp only [Bool.and_eq_true, decide_eq_true_iff] at h
    refine ⟨h.1.1, fun c hc => ?_⟩
    have := h.2
    unfold upperAlnumRe at this
    simp only [Bool.and_eq_true, List.all_eq_true] at this
    have hb := this.2 c hc
    simpa using hb
  · rintro ⟨h1, h2⟩
    simp only [Bool.and_eq_true, decide_eq_true_iff]
    refine ⟨⟨h1, ?_⟩, ?_⟩
    · rw [mapToUpper_self h2]
      exact beq_self_eq_true _
    · unfold upperAlnumRe
      simp only [Bool.and_eq_true, List.all_eq_true]
      constructor
      · cases w with
        | nil => simp at h1
        | cons a t => rfl
      · intro c hc
        have := h2 c hc
        simpa using this

end UStartKit

namespace UStartKit

/-- Claim C9 (corrected): the brand extractor first scans the dictionary
— but with right-delimited containment (brand followed by a space or a
hyphen, or equal to the whole lower-cased title), not word-boundary
containment — and returns a dictionary brand whose test fires whenever
one exists; when no dictionary test fires, it returns the title's first
token exactly when that token is all-caps alphanumeric of length > 2,
or TitleCase of length ≥ 3 and not in the stoplist of generic lead
words; in every other case it returns none. -/
theorem C9_brand_extractor (t : String) :
    ((∃ b ∈ knownBrands, brandHit (toLowerStr t) b = true) →
      ∃ b ∈ knownBrands, extractBrand t = some b ∧
        brandHit (toLowerStr t) b = true) ∧
    ((∀ b ∈ knownBrands, brandHit (toLowerStr t) b = false) →
      ∀ w ws, splitWords t.toList = w :: ws →
        ((w.length > 2 ∧ (∀ c ∈ w, c.isUpper = true ∨ c.isDigit = true)) →
          extractBrand t = some (String.mk w)) ∧
        (¬(w.length > 2 ∧ (∀ c ∈ w, c.isUpper = true ∨ c.isDigit = true)) →
          ((w.length ≥ 3 ∧ titleCaseRe w = true ∧
            (∀ g ∈ genericStarters,
              toLowerStr g ≠ toLowerStr (String.mk w))) →
            extractBrand t = some (String.mk w)) ∧
          (¬(w.length ≥ 3 ∧ titleCaseRe w = true) →
            extractBrand t = none) ∧
          ((∃ g ∈ genericStarters,
              toLowerStr g = toLowerStr (String.mk w)) →
            extractBrand t = none))) := by
  constructor
  · intro hex
    by_cases ht : t = ""
    · subst ht
      have hnone : ∀ b ∈ knownBrands, brandHit (toLowerStr "") b = false := by
        decide
      rcases hex with ⟨b, hb, hhit⟩
      rw [hnone b hb] at hhit
      cases hhit
    · unfold extractBrand
      rw [if_neg ht]
      simp only []
      cases hf : knownBrands.find? (fun b => brandHit (toLowerStr t) b) with
      | none =>
        rcases hex with ⟨b, hb, hhit⟩
        have := List.find?_eq_none.mp hf b hb
        simp [hhit] at this
      | some b =>
        refine ⟨b, List.mem_of_find?_eq_some hf, rfl, ?_⟩
        have := List.find?_some hf
        simpa using this
  · intro hno w ws hsplit
    have hf : knownBrands.find? (fun b => brandHit (toLowerStr t) b) = none :=
      List.find?_eq_none.mpr (fun b hb => by simp [hno b hb])
    by_cases ht : t = ""
    · subst ht
      have hw : w = [] := by
        have : splitWords ("" : String).toList = [[]] := rfl
        rw [this] at hsplit
        injection hsplit with h1 h2
        exact h1.symm
      subst hw
      refine ⟨fun hcaps => ?_, fun hncaps => ⟨fun htc => ?_, fun _ => rfl,
        fun _ => rfl⟩⟩
      · simp at hcaps
      · simp at htc
    · unfold extractBrand
      rw [if_neg ht]
      simp only []
      rw [hf, hsplit]
      have hAiff := capsCond_iff w
      refine ⟨fun hcaps => ?_, fun hncaps => ⟨fun htc => ?_, fun hntc => ?_,
        fun hstop => ?_⟩⟩
      · have hA : (decide (w.length > 2) &&
            (String.mk (w.map Char.toUpper) == String.mk w) &&
            upperAlnumRe w) = true := hAiff.mpr hcaps
        simp only [hA, if_true]
      · have hA : (decide (w.length > 2) &&
            (String.mk (w.map Char.toUpper) == String.mk w) &&
            upperAlnumRe w) = false := by
          rw [Bool.eq_false_iff]
          intro hc
          exact hncaps (hAiff.mp hc)
        have hB : (decide (w.length ≥ 3) && titleCaseRe w) = true := by
          simp only [Bool.and_eq_true, decide_eq_true_iff]
          exact ⟨htc.1, htc.2.1⟩
        have hS : (genericStarters.any
            (fun g => toLowerStr g == toLowerStr (String.mk w))) = false := by
          rw [Bool.eq_false_iff]
          intro hc
          simp only [List.any_eq_true, beq_iff_eq] at hc
          rcases hc with ⟨g, hg, hgl⟩
          exact htc.2.2 g hg hgl
        simp only [hA, hB, hS, Bool.false_eq_true, if_false, if_true]
      · have hA : (decide (w.length > 2) &&
            (String.mk (w.map Char.toUpper) == String.mk w) &&
            upperAlnumRe w) = false := by
          rw [Bool.eq_false_iff]
          intro hc
          exact hncaps (hAiff.mp hc)
        have hB : (decide (w.length ≥ 3) && titleCaseRe w) = false := by
          rw [Bool.eq_false_iff]
          intro hc
          simp only [Bool.and_eq_true, decide_eq_true_iff] at hc
          exact hntc ⟨hc.1, hc.2⟩
        simp only [hA, hB, Bool.false_eq_true, if_false]
      · have hA : (decide (w.length > 2) &&
            (String.mk (w.map Char.toUpper) == String.mk w) &&
            upperAlnumRe w) = false := by
          rw [Bool.eq_false_iff]
          intro hc
          exact hncaps (hAiff.mp hc)
        by_cases hB : (decide (w.length ≥ 3) && titleCaseRe w) = true
        · have hS : (genericStarters.any
              (fun g => toLowerStr g == toLowerStr (String.mk w))) = true := by
            simp only [List.any_eq_true, beq_iff_eq]
            rcases hstop with ⟨g, hg, hgl⟩
            exact ⟨g, hg, hgl⟩
          simp only [hA, hB, hS, Bool.false_eq_true, if_false, if_true]
        · rw [Bool.not_eq_true] at hB
          simp only [hA, hB, Bool.false_eq_true, if_false]

end UStartKit

namespace UStartKit

/-- Claim C9, witness: a dictionary hit returns the brand
("KitchenAid Mixer"), and with no dictionary hit the TitleCase fallback
returns the first token ("Xylo thing" gives "Xylo"). -/
theorem C9_witness :
    (∃ b ∈ knownBrands, extractBrand "KitchenAid Mixer" = some b ∧
      brandHit (toLowerStr "KitchenAid Mixer") b = true) ∧
    extractBrand "Xylo thing" = some "Xylo" := by
  constructor
  · exact (C9_brand_extractor "KitchenAid Mixer").1
      ⟨"KitchenAid", by decide, by decide⟩
  · have h := ((C9_brand_extractor "Xylo thing").2 (by decide)
      ['X', 'y', 'l', 'o'] [['t', 'h', 'i', 'n', 'g']] (by decide)).2
      (by decide)
    exact h.1 ⟨by decide, by decide, by decide⟩

end UStartKit

namespace UStartKit

theorem find?_min_price {pool : List AmazonProduct} {pr : AmazonProduct → Bool}
    {e : AmazonProduct} (hs : List.Sorted priceAsc pool)
    (hf : pool.find? pr = some e) :
    ∀ q ∈ pool, pr q = true →
      ple (parsePrice e.product_price) (parsePrice q.product_price) = true := by
  induction pool with
  | nil => simp at hf
  | cons p rest ih =>
    rcases List.pairwise_cons.mp hs with ⟨hp1, hp2⟩
    by_cases hp : pr p = true
    · rw [List.find?_cons_of_pos _ hp] at hf
      cases hf
      intro q hq _
      rcases List.mem_cons.mp hq with rfl | hq2
      · exact ple_refl _
      · exact hp1 q hq2
    · rw [List.find?_cons_of_neg _ (by simp [hp])] at hf
      intro q hq hpr
      rcases List.mem_cons.mp hq with rfl | hq2
      · exact absurd hpr hp
      · exact ih hp2 hf q hq2 hpr

theorem sorted_head_min {p : AmazonProduct} {rest : List AmazonProduct}
    (hs : List.Sorted priceAsc (p :: rest)) :
    ∀ q ∈ p :: rest,
      ple (parsePrice p.product_price) (parsePrice q.product_price) = true := by
  intro q hq
  rcases List.mem_cons.mp hq with rfl | hq2
  · exact ple_refl _
  · exact (List.pairwise_cons.mp hs).1 q hq2

theorem backfillGo_extends (tagFn reasonOf : String → String)
    (ts : List Tier) (fill : List AmazonProduct)
    (acc : List FormattedProduct) (present : List Tier) :
    ∃ ext, backfillGo tagFn reasonOf ts fill acc present = acc ++ ext := by
  induction ts generalizing fill acc present with
  | nil => exact ⟨[], by simp [backfillGo]⟩
  | cons t ts ih =>
    unfold backfillGo
    by_cases h3 : acc.length ≥ 3
    · rw [if_pos h3]
      exact ⟨[], by simp⟩
    · rw [if_neg h3]
      by_cases hpre : present.contains t
      · rw [if_pos hpre]
        exact ih fill acc present
      · rw [if_neg hpre]
        cases fill with
        | nil => exact ih [] acc present
        | cons c fillRest =>
          cases hfmt : formatProductP1 tagFn c t (reasonOf c.product_title) with
          | some f =>
            rcases ih fillRest (acc ++ [f]) (t :: present) with ⟨ext, hext⟩
            refine ⟨[f] ++ ext, ?_⟩
            show (match formatProductP1 tagFn c t (reasonOf c.product_title) with
              | some f =>
                backfillGo tagFn reasonOf ts fillRest (acc ++ [f]) (t :: present)
              | none => backfillGo tagFn reasonOf ts fillRest acc present) =
              acc ++ ([f] ++ ext)
            rw [hfmt]
            exact hext.trans (List.append_assoc acc [f] ext)
          | none =>
            rcases ih fillRest acc present with ⟨ext, hext⟩
            refine ⟨ext, ?_⟩
            show (match formatProductP1 tagFn c t (reasonOf c.product_title) with
              | some f =>
                backfillGo tagFn reasonOf ts fillRest (acc ++ [f]) (t :: present)
              | none => backfillGo tagFn reasonOf ts fillRest acc present) =
              acc ++ ext
            rw [hfmt]
            exact hext

theorem backfill_extends (tagFn reasonOf : String → String)
    (pool : List AmazonProduct) (acc : List FormattedProduct) :
    ∃ ext, backfill tagFn reasonOf pool acc = acc ++ ext := by
  unfold backfill
  split
  · exact backfillGo_extends tagFn reasonOf _ _ acc _
  · exact ⟨[], by simp⟩

end UStartKit

namespace UStartKit

theorem pickEssential_some (tagFn : String → String)
    {pool : List AmazonProduct} (hne : pool ≠ []) :
    ∃ e, pickEssential tagFn [] pool = some e ∧ e ∈ pool := by
  unfold pickEssential
  cases hf : pool.find? (fun p =>
      !usedHas [] (tagFn p.product_url) && essentialBar p) with
  | some e => exact ⟨e, rfl, List.mem_of_find?_eq_some hf⟩
  | none =>
    cases pool with
    | nil => exact absurd rfl hne
    | cons p rest =>
      have hhd : (p :: rest).find?
          (fun q => !usedHas [] (tagFn q.product_url)) = some p := by
        apply List.find?_cons_of_pos
        simp [usedHas, List.contains]
      rw [hhd]
      exact ⟨p, rfl, by simp⟩

/-- Claim C3 (corrected): in the part_001/product-types engine, for
every non-empty price-sorted pool the essential pick is the cheapest
candidate meeting the moderate bar (rating ≥ 3.5 and reviews ≥ 10), and
when no candidate meets the bar it is a candidate at the globally
cheapest price — so essential is always assigned, and the pipeline's
output always contains an essential record when the filtered pool is
non-empty.  (The amazon-search variant does not satisfy this; see the
counterexample.) -/
theorem C3_essential_selection :
    (∀ (tagFn : String → String) (pool : List AmazonProduct),
      pool ≠ [] → List.Sorted priceAsc pool →
      ∃ e, pickEssential tagFn [] pool = some e ∧ e ∈ pool ∧
        ((essentialBar e = true ∧
          ∀ q ∈ pool, essentialBar q = true →
            ple (parsePrice e.product_price)
              (parsePrice q.product_price) = true) ∨
         ((∀ q ∈ pool, essentialBar q = false) ∧
          ∀ q ∈ pool,
            ple (parsePrice e.product_price)
              (parsePrice q.product_price) = true))) ∧
    (∀ (tagFn reasonOf : String → String) (cand : List AmazonProduct),
      suitablePool tagFn cand ≠ [] →
      ∃ r, r ∈ pipelineP1 tagFn reasonOf cand ∧ r.tier = Tier.essential) := by
  constructor
  · intro tagFn pool hne hs
    unfold pickEssential
    have hpred : (fun p => !usedHas [] (tagFn p.product_url) &&
        essentialBar p) = (fun p => essentialBar p) := by
      funext p
      simp [usedHas, List.contains]
    rw [hpred]
    cases hf : pool.find? (fun p => essentialBar p) with
    | some e =>
      refine ⟨e, rfl, List.mem_of_find?_eq_some hf, Or.inl ⟨?_, ?_⟩⟩
      · have := List.find?_some hf
        simpa using this
      · exact find?_min_price hs hf
    | none =>
      cases pool with
      | nil => exact absurd rfl hne
      | cons p rest =>
        have hall : ∀ q ∈ p :: rest, essentialBar q = false := by
          intro q hq
          have := List.find?_eq_none.mp hf q hq
          simpa using this
        have hhd : (p :: rest).find?
            (fun q => !usedHas [] (tagFn q.product_url)) = some p := by
          apply List.find?_cons_of_pos
          simp [usedHas, List.contains]
        rw [hhd]
        exact ⟨p, rfl, by simp, Or.inr ⟨hall, sorted_head_min hs⟩⟩
  · intro tagFn reasonOf cand hne
    rcases pickEssential_some tagFn hne with ⟨e, hpick, hmem⟩
    have hfmtSome : (formatProductP1 tagFn e Tier.essential
        (reasonOf e.product_title)).isSome = true := by
      have hmem2 : e ∈ (cand.filter (fun p =>
          p.product_photo ≠ "" && p.product_price ≠ "" &&
            p.product_url ≠ "" &&
            strContainsSub p.product_url "amazon.com")).filter
          (fun p => (formatProductP1 tagFn p Tier.essential "").isSome) := by
        have hperm := List.perm_insertionSort priceAsc
          ((cand.filter (fun p =>
            p.product_photo ≠ "" && p.product_price ≠ "" &&
              p.product_url ≠ "" &&
              strContainsSub p.product_url "amazon.com")).filter
            (fun p => (formatProductP1 tagFn p Tier.essential "").isSome))
        exact hperm.mem_iff.mp hmem
      have := (List.mem_filter.mp hmem2).2
      rw [formatProductP1_isSome tagFn e Tier.essential ""] at this
      rw [formatProductP1_isSome]
      exact this
    rcases Option.isSome_iff_exists.mp hfmtSome with ⟨f, hf⟩
    refine ⟨f, ?_, ?_⟩
    · have hmain : f ∈ mainOutput tagFn reasonOf (suitablePool tagFn cand) := by
        unfold mainOutput
        have hsel : (selTriple tagFn (suitablePool tagFn cand)).1 =
            pickEssential tagFn [] (suitablePool tagFn cand) := rfl
        apply List.mem_append_left
        apply List.mem_append_left
        rw [hsel, hpick]
        show f ∈ (match formatProductP1 tagFn e Tier.essential
            (reasonOf e.product_title) with
          | some f => [f]
          | none => [])
        rw [hf]
        simp
      rcases backfill_extends tagFn reasonOf (suitablePool tagFn cand)
        (mainOutput tagFn reasonOf (suitablePool tagFn cand)) with ⟨ext, hext⟩
      have hfill : f ∈ backfill tagFn reasonOf (suitablePool tagFn cand)
          (mainOutput tagFn reasonOf (suitablePool tagFn cand)) := by
        rw [hext]
        exact List.mem_append_left _ hmain
      unfold pipelineP1
      have hempty : (suitablePool tagFn cand).isEmpty = false := by
        cases hsp : suitablePool tagFn cand with
        | nil => exact absurd hsp hne
        | cons a t => rfl
      simp only []
      rw [hempty]
      simp only [Bool.false_eq_true, if_false]
      exact (List.perm_insertionSort finalOrd _).mem_iff.mpr hfill
    · rw [formatProductP1_some hf]

/-- Claim C3, witness: on the concrete three-candidate pool the
essential pick exists, meets the bar at the cheapest bar-meeting price,
and the pipeline output contains an essential record. -/
theorem C3_witness :
    (∃ e, pickEssential idTag [] (suitablePool idTag poolW) = some e ∧
      e ∈ suitablePool idTag poolW ∧
      ((essentialBar e = true ∧
        ∀ q ∈ suitablePool idTag poolW, essentialBar q = true →
          ple (parsePrice e.product_price)
            (parsePrice q.product_price) = true) ∨
       ((∀ q ∈ suitablePool idTag poolW, essentialBar q = false) ∧
        ∀ q ∈ suitablePool idTag poolW,
          ple (parsePrice e.product_price)
            (parsePrice q.product_price) = true))) ∧
    (∃ r, r ∈ pipelineP1 idTag noReason poolW ∧ r.tier = Tier.essential) := by
  constructor
  · exact C3_essential_selection.1 idTag (suitablePool idTag poolW)
      (by decide) (by decide)
  · exact C3_essential_selection.2 idTag noReason poolW (by decide)

end UStartKit

namespace UStartKit

theorem pushFmt_mem {tagFn reasonOf : String → String} {t : Tier}
    {o : Option AmazonProduct} {r : FormattedProduct}
    (h : r ∈ pushFmt tagFn reasonOf t o) :
    ∃ p, o = some p ∧
      formatProductP1 tagFn p t (reasonOf p.product_title) = some r := by
  unfold pushFmt at h
  split at h
  · rename_i p
    split at h
    · rename_i f hf
      simp only [List.mem_singleton] at h
      subst h
      exact ⟨p, rfl, hf⟩
    · simp at h
  · simp at h

theorem backfillGo_mem {tagFn reasonOf : String → String} {ts : List Tier}
    {fill : List AmazonProduct} {acc : List FormattedProduct}
    {present : List Tier} {r : FormattedProduct}
    (h : r ∈ backfillGo tagFn reasonOf ts fill acc present) :
    r ∈ acc ∨ ∃ p t, formatProductP1 tagFn p t (reasonOf p.product_title) =
      some r := by
  induction ts generalizing fill acc present with
  | nil =>
    unfold backfillGo at h
    exact Or.inl h
  | cons t ts ih =>
    unfold backfillGo at h
    split at h
    · exact Or.inl h
    · split at h
      · exact ih h
      · split at h
        · exact ih h
        · rename_i c fillRest
          split at h
          · rename_i f hf
            rcases ih h with hin | hor
            · rcases List.mem_append.mp hin with hin2 | hin2
              · exact Or.inl hin2
              · simp only [List.mem_singleton] at hin2
                subst hin2
                exact Or.inr ⟨c, t, hf⟩
            · exact Or.inr hor
          · exact ih h

theorem mainOutput_mem {tagFn reasonOf : String → String}
    {pool : List AmazonProduct} {r : FormattedProduct}
    (h : r ∈ mainOutput tagFn reasonOf pool) :
    ∃ p t, formatProductP1 tagFn p t (reasonOf p.product_title) = some r := by
  unfold mainOutput at h
  simp only [] at h
  rcases List.mem_append.mp h with h1 | h1
  · rcases List.mem_append.mp h1 with h2 | h2
    · rcases pushFmt_mem h2 with ⟨p, _, hp⟩
      exact ⟨p, Tier.essential, hp⟩
    · rcases pushFmt_mem h2 with ⟨p, _, hp⟩
      exact ⟨p, Tier.premium, hp⟩
  · rcases pushFmt_mem h1 with ⟨p, _, hp⟩
    exact ⟨p, Tier.luxury, hp⟩

theorem backfill_mem {tagFn reasonOf : String → String}
    {pool : List AmazonProduct} {acc : List FormattedProduct}
    {r : FormattedProduct} (h : r ∈ backfill tagFn reasonOf pool acc) :
    r ∈ acc ∨ ∃ p t, formatProductP1 tagFn p t (reasonOf p.product_title) =
      some r := by
  unfold backfill at h
  split at h
  · exact backfillGo_mem h
  · exact Or.inl h

theorem pipelineP1_origin {tagFn reasonOf : String → String}
    {cand : List AmazonProduct} {r : FormattedProduct}
    (h : r ∈ pipelineP1 tagFn reasonOf cand) :
    ∃ p t, formatProductP1 tagFn p t (reasonOf p.product_title) = some r := by
  unfold pipelineP1 at h
  simp only [] at h
  split at h
  · simp at h
  · have h2 := (List.perm_insertionSort finalOrd _).mem_iff.mp h
    rcases backfill_mem h2 with hin | hor
    · exact mainOutput_mem hin
    · exact hor

end UStartKit

namespace UStartKit

theorem dedupeV2_subset {seen : List String} {l : List FormattedProduct}
    {r : FormattedProduct} (h : r ∈ dedupeV2 seen l) : r ∈ l := by
  induction l generalizing seen with
  | nil => simpa [dedupeV2] using h
  | cons p rest ih =>
    unfold dedupeV2 at h
    split at h
    · exact List.mem_cons_of_mem p (ih h)
    · rcases List.mem_cons.mp h with rfl | h2
      · exact List.mem_cons_self _ _
      · exact List.mem_cons_of_mem p (ih h2)

theorem assignTiersV2_name {uniq : List FormattedProduct}
    {r : FormattedProduct} (h : r ∈ assignTiersV2 uniq) :
    ∃ q ∈ uniq, r.name = q.name := by
  match uniq with
  | [] => simp [assignTiersV2] at h
  | [a] =>
    simp only [assignTiersV2, List.mem_singleton] at h
    subst h
    exact ⟨a, by simp, rfl⟩
  | [a, b] =>
    simp only [assignTiersV2, List.mem_cons, List.mem_singleton,
      List.not_mem_nil, or_false] at h
    rcases h with rfl | rfl
    · exact ⟨a, by simp, rfl⟩
    · exact ⟨b, by simp, rfl⟩
  | a :: b :: c :: rest =>
    simp only [assignTiersV2, List.mem_cons, List.not_mem_nil,
      or_false] at h
    rcases h with rfl | rfl | rfl
    · exact ⟨a, by simp, rfl⟩
    · cases hg : (((a :: b :: c :: rest).drop 1).take
          ((a :: b :: c :: rest).length - 3)).get?
          ((((a :: b :: c :: rest).drop 1).take
            ((a :: b :: c :: rest).length - 3)).length / 2) with
      | some m =>
        refine ⟨m, ?_, ?_⟩
        · exact List.mem_of_mem_drop (List.mem_of_mem_take (List.get?_mem hg))
        · simp only [hg]
      | none =>
        refine ⟨b, by simp, ?_⟩
        simp only [hg]
    · refine ⟨(a :: b :: c :: rest).getLast (by simp), ?_, rfl⟩
      exact List.getLast_mem _

theorem pipelineV2_origin {tagFn : String → String} {productType : String}
    {cand : List AmazonProduct} {r : FormattedProduct}
    (h : r ∈ pipelineV2 tagFn productType cand) :
    ∃ p q, formatProductV2 tagFn p = some q ∧ r.name = q.name := by
  unfold pipelineV2 at h
  simp only [] at h
  rcases assignTiersV2_name h with ⟨q, hq, hname⟩
  have hq2 := (List.perm_insertionSort priceAscV2 _).mem_iff.mp hq
  have hq3 := dedupeV2_subset hq2
  have hq4 : q ∈ cand.filterMap (fun p => formatProductV2 tagFn p) := by
    by_cases hcore : (coreTermsV2 productType).isEmpty = true
    · rw [if_pos hcore] at hq3
      exact hq3
    · rw [if_neg hcore] at hq3
      exact List.mem_of_mem_filter hq3
  rcases List.mem_filterMap.mp hq4 with ⟨p, _, hp⟩
  exact ⟨p, q, hp, hname⟩

/-- A successful amazon-search `formatProduct` implies the lower-cased
title is free of that engine's exclusion keywords. -/
theorem formatProductAS_kwFree {tagFn : String → String}
    {p : AmazonProduct} {t : Tier} {r : FormattedProductAS}
    (h : formatProductAS tagFn p t = some r) :
    kwHit excludeKeywordsAS (toLowerStr p.product_title) = false := by
  unfold formatProductAS at h
  split at h
  · exact absurd h (by simp)
  · simp only [] at h
    split at h
    · exact absurd h (by simp)
    · rename_i hkw
      simpa using hkw

/-- Every record emitted by the amazon-search push step comes from the
incoming accumulator or from a successful `formatProduct`. -/
theorem pushAS_mem {tagFn : String → String} {t : Tier}
    {sel : Option AmazonProduct} {acc : List FormattedProductAS}
    {used : List String} {r : FormattedProductAS}
    (h : r ∈ (pushAS tagFn t sel acc used).1) :
    r ∈ acc ∨ ∃ p, sel = some p ∧ formatProductAS tagFn p t = some r := by
  cases sel with
  | none => exact Or.inl h
  | some p =>
    unfold pushAS at h
    have h2 : r ∈ (match formatProductAS tagFn p t with
        | none => (acc, used)
        | some f =>
          if usedHas used f.link then (acc, used)
          else (acc ++ [f], f.link :: used)).1 := h
    cases hf : formatProductAS tagFn p t with
    | none =>
      rw [hf] at h2
      exact Or.inl h2
    | some f =>
      rw [hf] at h2
      have h3 : r ∈ (if usedHas used f.link = true then (acc, used)
          else (acc ++ [f], f.link :: used)).1 := h2
      by_cases hu : usedHas used f.link = true
      · rw [if_pos hu] at h3
        exact Or.inl h3
      · rw [if_neg hu] at h3
        rcases List.mem_append.mp h3 with h4 | h4
        · exact Or.inl h4
        · rw [List.mem_singleton] at h4
          subst h4
          exact Or.inr ⟨p, rfl, hf⟩

/-- Every record emitted by the three main amazon-search pushes comes
from a successful `formatProduct`. -/
theorem pushAS_chain_mem {tagFn : String → String}
    {t1 t2 t3 : Tier} {sel1 sel2 sel3 : Option AmazonProduct}
    {u1 u2 u3 : List String} {r : FormattedProductAS}
    (h : r ∈ (pushAS tagFn t3 sel3
      (pushAS tagFn t2 sel2 (pushAS tagFn t1 sel1 [] u1).1 u2).1 u3).1) :
    ∃ p t, formatProductAS tagFn p t = some r := by
  rcases pushAS_mem h with h2 | ⟨p, _, hp⟩
  · rcases pushAS_mem h2 with h3 | ⟨p, _, hp⟩
    · rcases pushAS_mem h3 with h4 | ⟨p, _, hp⟩
      · cases h4
      · exact ⟨p, t1, hp⟩
    · exact ⟨p, t2, hp⟩
  · exact ⟨p, t3, hp⟩

/-- Every record emitted by the amazon-search tier-fill loop comes from
the incoming accumulator or from a successful `formatProduct`. -/
theorem fillGoAS_mem {tagFn : String → String}
    {suitable : List AmazonProduct} :
    ∀ {ts : List Tier} {acc : List FormattedProductAS}
      {used : List String} {pop : List Tier} {r : FormattedProductAS},
      r ∈ fillGoAS tagFn suitable ts acc used pop →
      r ∈ acc ∨ ∃ p t, formatProductAS tagFn p t = some r := by
  intro ts
  induction ts with
  | nil =>
    intro acc used pop r h
    exact Or.inl h
  | cons t ts ih =>
    intro acc used pop r h
    unfold fillGoAS at h
    split at h
    · split at h
      · exact Or.inl h
      · exact ih h
    · split at h
      · split at h
        · exact Or.inl h
        · exact ih h
      · rename_i c hc
        split at h
        · split at h
          · exact Or.inl h
          · exact ih h
        · rename_i f hf
          simp only [] at h
          split at h
          · rcases List.mem_append.mp h with h2 | h2
            · exact Or.inl h2
            · rw [List.mem_singleton] at h2
              subst h2
              exact Or.inr ⟨c, t, hf⟩
          · rcases ih h with h2 | h2
            · rcases List.mem_append.mp h2 with h3 | h3
              · exact Or.inl h3
              · rw [List.mem_singleton] at h3
                subst h3
                exact Or.inr ⟨c, t, hf⟩
            · exact Or.inr h2

/-- Every record of the amazon-search pipeline's output comes from a
successful `formatProduct` on some candidate. -/
theorem pipelineAS_fill_mem {tagFn : String → String}
    {suitable2 : List AmazonProduct} {acc : List FormattedProductAS}
    {c1 : Bool} {u : List String} {pop : List Tier} {r : FormattedProductAS}
    (hacc : ∀ x ∈ acc, ∃ p t, formatProductAS tagFn p t = some x)
    (h : r ∈ (if c1 = true then
        fillGoAS tagFn suitable2
          [Tier.essential, Tier.premium, Tier.luxury] acc u pop
      else acc)) :
    ∃ p t, formatProductAS tagFn p t = some r := by
  split at h
  · rcases fillGoAS_mem h with h2 | h2
    · exact hacc r h2
    · exact h2
  · exact hacc r h

theorem memIfAS {tagFn : String → String} {A B : List FormattedProductAS}
    {c : Bool}
    (hA : ∀ x ∈ A, ∃ p t, formatProductAS tagFn p t = some x)
    (hB : ∀ x ∈ B, ∃ p t, formatProductAS tagFn p t = some x) :
    ∀ x ∈ (if c = true then A else B),
      ∃ p t, formatProductAS tagFn p t = some x := by
  intro x hx
  split at hx
  · exact hA x hx
  · exact hB x hx

/-- Every record of the amazon-search pipeline's output comes from a
successful `formatProduct` on some candidate. -/
theorem pipelineAS_origin {tagFn : String → String}
    {cand : List AmazonProduct} {r : FormattedProductAS}
    (h : r ∈ pipelineAS tagFn cand) :
    ∃ p t, formatProductAS tagFn p t = some r := by
  unfold pipelineAS at h
  simp only [] at h
  split at h
  · cases h
  · refine pipelineAS_fill_mem ?_ h
    refine memIfAS ?_ (fun x hx => pushAS_chain_mem hx)
    intro x hx
    split at hx
    · split at hx
      · rcases List.mem_append.mp hx with h2 | h2
        · exact pushAS_chain_mem h2
        · rw [List.mem_singleton] at h2
          subst h2
          exact ⟨_, Tier.essential, by assumption⟩
      · exact pushAS_chain_mem hx
    · exact pushAS_chain_mem hx

/-- Claim C5 (corrected): every record the part_001 engine returns has a
lower-cased title free of that engine's exclusion keywords, every record
the amazon-search engine returns has a lower-cased title free of that
engine's exclusion keywords, and every record the product-types v2
engine returns additionally matches no bulk-pack pattern; the part_001
and amazon-search engines themselves perform no bulk-pack check (see the
counterexample). -/
theorem C5_exclusion :
    (∀ (tagFn reasonOf : String → String) (cand : List AmazonProduct)
      (r : FormattedProduct), r ∈ pipelineP1 tagFn reasonOf cand →
      kwHit excludeKeywordsP1 (toLowerStr r.name) = false) ∧
    (∀ (tagFn : String → String) (cand : List AmazonProduct)
      (r : FormattedProductAS), r ∈ pipelineAS tagFn cand →
      kwHit excludeKeywordsAS (toLowerStr r.name) = false) ∧
    (∀ (tagFn : String → String) (productType : String)
      (cand : List AmazonProduct) (r : FormattedProduct),
      r ∈ pipelineV2 tagFn productType cand →
      kwHit excludeKeywordsV2 (toLowerStr r.name) = false ∧
      bulkHit (toLowerStr r.name) = false) := by
  refine ⟨?_, ?_, ?_⟩
  · intro tagFn reasonOf cand r h
    rcases pipelineP1_origin h with ⟨p, t, hp⟩
    have hname : r.name = p.product_title := by
      rw [formatProductP1_some hp]
    have hsome : (formatProductP1 tagFn p t
        (reasonOf p.product_title)).isSome = true := by
      rw [hp]
      rfl
    rw [formatProductP1_isSome] at hsome
    simp only [Bool.and_eq_true, Bool.not_eq_true'] at hsome
    rw [hname]
    exact hsome.1.2
  · intro tagFn cand r h
    rcases pipelineAS_origin h with ⟨p, t, hp⟩
    have hname : r.name = p.product_title := by
      rw [formatProductAS_some hp]
    rw [hname]
    exact formatProductAS_kwFree hp
  · intro tagFn productType cand r h
    rcases pipelineV2_origin h with ⟨p, q, hp, hname⟩
    rcases formatProductV2_some hp with ⟨hq, hkw, hbulk⟩
    have : q.name = p.product_title := by rw [hq]
    rw [hname, this]
    exact ⟨hkw, hbulk⟩

/-- Claim C5, witness: a concrete part_001 output record has no
exclusion keyword, a concrete amazon-search output record has no
exclusion keyword, and a concrete v2 output record passes both
checks. -/
theorem C5_witness :
    (∀ r ∈ pipelineP1 idTag noReason poolW,
      kwHit excludeKeywordsP1 (toLowerStr r.name) = false) ∧
    (∀ r ∈ pipelineAS idTag poolW,
      kwHit excludeKeywordsAS (toLowerStr r.name) = false) ∧
    (∀ r ∈ pipelineV2 idTag "Hiking Poles"
      [⟨"hiking pole alpha", "ph", "$10", "u1", "4.5", "50"⟩],
      kwHit excludeKeywordsV2 (toLowerStr r.name) = false ∧
      bulkHit (toLowerStr r.name) = false) := by
  refine ⟨?_, ?_, ?_⟩
  · intro r hr
    exact C5_exclusion.1 idTag noReason poolW r hr
  · intro r hr
    exact C5_exclusion.2.1 idTag poolW r hr
  · intro r hr
    exact C5_exclusion.2.2 idTag "Hiking Poles"
      [⟨"hiking pole alpha", "ph", "$10", "u1", "4.5", "50"⟩] r hr

end UStartKit

namespace UStartKit

theorem jle_refl (a : JNum) : jle a a = true := by
  rw [jle_iff]

theorem jle_trans {a b c : JNum} (h1 : jle a b = true) (h2 : jle b c = true) :
    jle a c = true := by
  rw [jle_iff] at h1 h2 ⊢
  exact le_trans h1 h2

theorem jle_of_jlt {a b : JNum} (h : jlt a b = true) : jle a b = true := by
  rw [jlt_iff] at h
  rw [jle_iff]
  exact le_of_lt h

theorem jle_of_not_jlt {a b : JNum} (h : ¬ jlt a b = true) : jle b a = true := by
  rw [jlt_iff] at h
  rw [jle_iff]
  exact le_of_not_lt h

/-- The separation guard failing (price not within `essential × 1.2`)
forces a price strictly above essential's. -/
theorem sepFail_false_plt {e p : AmazonProduct}
    (h : sepFail (some e) p = false) :
    plt (parsePrice e.product_price) (parsePrice p.product_price) = true := by
  unfold sepFail at h
  have h0 : ple (parsePrice p.product_price)
      (pmulSep (parsePrice e.product_price)) = false := h
  have h2 : plt (pmulSep (parsePrice e.product_price))
      (parsePrice p.product_price) = true :=
    plt_of_not_ple (by simp [h0])
  cases he : parsePrice e.product_price with
  | fin j =>
    have hnn : 0 ≤ j.man := parsePrice_fin_nonneg he
    rw [he] at h2
    exact plt_of_ple_of_plt (ple_pmulSep hnn) h2
  | inf =>
    rw [he] at h2
    have : pmulSep PVal.inf = PVal.inf := rfl
    rw [this] at h2
    cases hp : parsePrice p.product_price <;> rw [hp] at h2 <;>
      exact absurd h2 (by simp [plt])

/-- Any result of the strict luxury scan that did not come from the
incoming tentative value is an unused, bar-passing, separated member of
the scanned list. -/
theorem luxStrictGo_some {tagFn : String → String} {used : List String}
    {eP : Option AmazonProduct} {eBrand : Option String} :
    ∀ {rev : List AmazonProduct} {tent : Option AmazonProduct}
      {l : AmazonProduct},
      luxStrictGo tagFn used eP eBrand rev tent = some l →
      tent = some l ∨
        (l ∈ rev ∧ usedHas used (tagFn l.product_url) = false ∧
          luxuryBar l = true ∧ sepFail eP l = false) := by
  intro rev
  induction rev with
  | nil =>
    intro tent l h
    exact Or.inl h
  | cons p rest ih =>
    intro tent l h
    unfold luxStrictGo at h
    split at h
    · rcases ih h with h2 | h2
      · exact Or.inl h2
      · exact Or.inr ⟨List.mem_cons_of_mem p h2.1, h2.2⟩
    · split at h
      · rcases ih h with h2 | h2
        · exact Or.inl h2
        · exact Or.inr ⟨List.mem_cons_of_mem p h2.1, h2.2⟩
      · split at h
        · rcases ih h with h2 | h2
          · exact Or.inl h2
          · exact Or.inr ⟨List.mem_cons_of_mem p h2.1, h2.2⟩
        · rename_i hused hbar hsep
          have hQ : usedHas used (tagFn p.product_url) = false ∧
              luxuryBar p = true ∧ sepFail eP p = false := by
            refine ⟨by simpa using hused, by simpa using hbar,
              by simpa using hsep⟩
          split at h
          · split at h
            · cases h
              exact Or.inr ⟨List.mem_cons_self _ _, hQ⟩
            · rcases ih h with h2 | h2
              · cases htent : tent with
                | some t0 =>
                  rw [htent] at h2
                  simp only [] at h2
                  exact Or.inl h2
                | none =>
                  rw [htent] at h2
                  simp only [] at h2
                  cases h2
                  exact Or.inr ⟨List.mem_cons_self _ _, hQ⟩
              · exact Or.inr ⟨List.mem_cons_of_mem p h2.1, h2.2⟩
          · rcases ih h with h2 | h2
            · cases htent : tent with
              | some t0 =>
                rw [htent] at h2
                simp only [] at h2
                exact Or.inl h2
              | none =>
                rw [htent] at h2
                simp only [] at h2
                cases h2
                exact Or.inr ⟨List.mem_cons_self _ _, hQ⟩
            · exact Or.inr ⟨List.mem_cons_of_mem p h2.1, h2.2⟩

end UStartKit

namespace UStartKit

/-- Invariant of the `bestFallbackLuxury` accumulation: the result comes
from the incoming best or is a qualifying member of the scanned list, it
dominates the incoming best's rating, and it dominates every qualifying
member of the scanned list. -/
theorem luxFallbackGo_max {tagFn : String → String} {used : List String}
    {eP : Option AmazonProduct} :
    ∀ {rev : List AmazonProduct} {best : Option AmazonProduct}
      {l : AmazonProduct},
      luxFallbackGo tagFn used eP rev best = some l →
      (best = some l ∨
        (l ∈ rev ∧ usedHas used (tagFn l.product_url) = false ∧
          sepFail eP l = false ∧ jle (jn 4 0) (ratingOr0 l) = true)) ∧
      (∀ b, best = some b → jle (ratingOr0 b) (ratingOr0 l) = true) ∧
      (∀ p ∈ rev, usedHas used (tagFn p.product_url) = false →
        sepFail eP p = false → jle (jn 4 0) (ratingOr0 p) = true →
        jle (ratingOr0 p) (ratingOr0 l) = true) := by
  intro rev
  induction rev with
  | nil =>
    intro best l h
    refine ⟨Or.inl h, ?_, ?_⟩
    · intro b hb
      rw [hb] at h
      cases h
      exact jle_refl _
    · intro p hp
      cases hp
  | cons p rest ih =>
    intro best l h
    unfold luxFallbackGo at h
    split at h
    · rename_i hu
      obtain ⟨h1, h2, h3⟩ := ih h
      refine ⟨?_, h2, ?_⟩
      · rcases h1 with h1 | h1
        · exact Or.inl h1
        · exact Or.inr ⟨List.mem_cons_of_mem p h1.1, h1.2⟩
      · intro q hq hqu hqs hqr
        rcases List.mem_cons.mp hq with rfl | hq
        · rw [hu] at hqu
          cases hqu
        · exact h3 q hq hqu hqs hqr
    · split at h
      · rename_i hs
        obtain ⟨h1, h2, h3⟩ := ih h
        refine ⟨?_, h2, ?_⟩
        · rcases h1 with h1 | h1
          · exact Or.inl h1
          · exact Or.inr ⟨List.mem_cons_of_mem p h1.1, h1.2⟩
        · intro q hq hqu hqs hqr
          rcases List.mem_cons.mp hq with rfl | hq
          · rw [hs] at hqs
            cases hqs
          · exact h3 q hq hqu hqs hqr
      · split at h
        · rename_i hu hs hr
          have hu2 : usedHas used (tagFn p.product_url) = false := by
            simpa using hu
          have hs2 : sepFail eP p = false := by
            simpa using hs
          split at h
          · obtain ⟨h1, h2, h3⟩ := ih h
            refine ⟨?_, ?_, ?_⟩
            · rcases h1 with h1 | h1
              · injection h1 with h1
                subst h1
                exact Or.inr ⟨List.mem_cons_self _ _, hu2, hs2, hr⟩
              · exact Or.inr ⟨List.mem_cons_of_mem p h1.1, h1.2⟩
            · intro b hb
              cases hb
            · intro q hq hqu hqs hqr
              rcases List.mem_cons.mp hq with rfl | hq
              · exact h2 q rfl
              · exact h3 q hq hqu hqs hqr
          · rename_i b
            split at h
            · rename_i hlt
              obtain ⟨h1, h2, h3⟩ := ih h
              refine ⟨?_, ?_, ?_⟩
              · rcases h1 with h1 | h1
                · injection h1 with h1
                  subst h1
                  exact Or.inr ⟨List.mem_cons_self _ _, hu2, hs2, hr⟩
                · exact Or.inr ⟨List.mem_cons_of_mem p h1.1, h1.2⟩
              · intro b0 hb0
                injection hb0 with hb0
                subst hb0
                exact jle_trans (jle_of_jlt hlt) (h2 p rfl)
              · intro q hq hqu hqs hqr
                rcases List.mem_cons.mp hq with rfl | hq
                · exact h2 q rfl
                · exact h3 q hq hqu hqs hqr
            · rename_i hlt
              obtain ⟨h1, h2, h3⟩ := ih h
              refine ⟨?_, ?_, ?_⟩
              · rcases h1 with h1 | h1
                · exact Or.inl h1
                · exact Or.inr ⟨List.mem_cons_of_mem p h1.1, h1.2⟩
              · intro b0 hb0
                injection hb0 with hb0
                subst hb0
                exact h2 b rfl
              · intro q hq hqu hqs hqr
                rcases List.mem_cons.mp hq with rfl | hq
                · exact jle_trans (jle_of_not_jlt hlt) (h2 b rfl)
                · exact h3 q hq hqu hqs hqr
        · rename_i hr
          obtain ⟨h1, h2, h3⟩ := ih h
          refine ⟨?_, h2, ?_⟩
          · rcases h1 with h1 | h1
            · exact Or.inl h1
            · exact Or.inr ⟨List.mem_cons_of_mem p h1.1, h1.2⟩
          · intro q hq hqu hqs hqr
            rcases List.mem_cons.mp hq with rfl | hq
            · exact absurd hqr hr
            · exact h3 q hq hqu hqs hqr

end UStartKit

namespace UStartKit

/-- The absolute luxury fallback returns an unused pool member priced
strictly above the essential pick. -/
theorem luxAbsolute_some {tagFn : String → String} {used : List String}
    {eP : Option AmazonProduct} {pool : List AmazonProduct}
    {l : AmazonProduct} (h : luxAbsolute tagFn used eP pool = some l) :
    l ∈ pool ∧ usedHas used (tagFn l.product_url) = false ∧
      ∀ e, eP = some e →
        plt (parsePrice e.product_price) (parsePrice l.product_price) = true := by
  unfold luxAbsolute at h
  have hm := List.mem_of_mem_getLast? h
  rw [List.mem_filter] at hm
  obtain ⟨hm1, hm2⟩ := hm
  rw [Bool.and_eq_true] at hm2
  refine ⟨hm1, by simpa using hm2.1, ?_⟩
  intro e he
  subst he
  exact hm2.2

/-- In a price-ascending pairwise-ordered list, the last element is at
least as expensive as every element. -/
theorem pairwise_getLast?_max :
    ∀ {xs : List AmazonProduct}, List.Pairwise priceAsc xs →
      ∀ {x : AmazonProduct}, xs.getLast? = some x →
      ∀ p ∈ xs,
        ple (parsePrice p.product_price) (parsePrice x.product_price) = true := by
  intro xs
  induction xs with
  | nil =>
    intro _ x hx
    cases hx
  | cons a t ih =>
    intro hp x hx p hpm
    cases t with
    | nil =>
      have hxa : a = x := by
        simpa using hx
      subst hxa
      have hpa : p = a := by
        simpa using hpm
      subst hpa
      exact ple_refl _
    | cons b t2 =>
      rw [List.getLast?_cons_cons] at hx
      rw [List.pairwise_cons] at hp
      rcases List.mem_cons.mp hpm with rfl | hpm2
      · exact hp.1 x (List.mem_of_mem_getLast? hx)
      · exact ih hp.2 hx p hpm2

/-- Maximality of the absolute luxury fallback over a price-sorted pool:
no unused candidate above essential is more expensive than the pick. -/
theorem luxAbsolute_max {tagFn : String → String} {used : List String}
    {eP : Option AmazonProduct} {pool : List AmazonProduct}
    {l p : AmazonProduct} (hs : List.Pairwise priceAsc pool)
    (h : luxAbsolute tagFn used eP pool = some l) (hpm : p ∈ pool)
    (hpu : usedHas used (tagFn p.product_url) = false)
    (hpe : ∀ e, eP = some e →
      plt (parsePrice e.product_price) (parsePrice p.product_price) = true) :
    ple (parsePrice p.product_price) (parsePrice l.product_price) = true := by
  unfold luxAbsolute at h
  cases eP with
  | none =>
    exact pairwise_getLast?_max
      (List.Pairwise.sublist (List.filter_sublist pool) hs) h p
      (List.mem_filter.mpr ⟨hpm, by simp [hpu]⟩)
  | some e =>
    exact pairwise_getLast?_max
      (List.Pairwise.sublist (List.filter_sublist pool) hs) h p
      (List.mem_filter.mpr ⟨hpm, by simp [hpu, hpe e rfl]⟩)

/-- Invariant of the premium best-score loop: the result comes from the
incoming best or is a member of the scanned pool that passes the premium
bar and the price window. -/
theorem premLoop_some {eP lP : Option AmazonProduct} {eBrand : Option String} :
    ∀ {pool2 : List AmazonProduct} {best : Option AmazonProduct}
      {bestScore : JNum} {l : AmazonProduct},
      premLoop eP lP eBrand pool2 best bestScore = some l →
      best = some l ∨
        (l ∈ pool2 ∧ premPriceOk eP lP l = true ∧
          (jlt (ratingOr0 l) (jn 38 1) || decide (reviewsOf l < 15)) = false) := by
  intro pool2
  induction pool2 with
  | nil =>
    intro best bestScore l h
    exact Or.inl h
  | cons p rest ih =>
    intro best bestScore l h
    unfold premLoop at h
    split at h
    · rcases ih h with h2 | h2
      · exact Or.inl h2
      · exact Or.inr ⟨List.mem_cons_of_mem p h2.1, h2.2⟩
    · split at h
      · rcases ih h with h2 | h2
        · exact Or.inl h2
        · exact Or.inr ⟨List.mem_cons_of_mem p h2.1, h2.2⟩
      · rename_i hbar hok
        have hok2 : premPriceOk eP lP p = true := by
          simpa using hok
        have hbar2 : (jlt (ratingOr0 p) (jn 38 1) ||
            decide (reviewsOf p < 15)) = false := by
          simpa using hbar
        split at h
        · rcases ih h with h2 | h2
          · injection h2 with h2
            subst h2
            exact Or.inr ⟨List.mem_cons_self _ _, hok2, hbar2⟩
          · exact Or.inr ⟨List.mem_cons_of_mem p h2.1, h2.2⟩
        · rcases ih h with h2 | h2
          · exact Or.inl h2
          · exact Or.inr ⟨List.mem_cons_of_mem p h2.1, h2.2⟩

/-- Every premium selection is a member of the remaining pool satisfying
the price window (strictly above essential, strictly below luxury). -/
theorem premSelect_some {tagFn : String → String}
    {eP lP : Option AmazonProduct} {eBrand : Option String}
    {pool2 : List AmazonProduct} {P : AmazonProduct}
    (h : premSelect tagFn eP lP eBrand pool2 = some P) :
    P ∈ pool2 ∧ premPriceOk eP lP P = true := by
  unfold premSelect at h
  split at h
  · cases h
  · rename_i best heq
    simp only [] at h
    split at h
    · injection h with h2
      subst h2
      rcases premLoop_some heq with h3 | h3
      · cases h3
      · exact ⟨h3.1, h3.2.1⟩
    · have hok := List.find?_some h
      rw [Bool.and_eq_true] at hok
      have hmem := List.mem_of_find?_eq_some h
      rw [(List.perm_insertionSort ratingDesc _).mem_iff] at hmem
      rw [List.mem_filter] at hmem
      exact ⟨hmem.1, hok.1⟩

/-- Every luxury selection is an unused pool member priced strictly above
the essential pick (whichever of the three strategies produced it). -/
theorem luxSelect_some {tagFn : String → String} {used : List String}
    {eP : Option AmazonProduct} {eBrand : Option String}
    {pool : List AmazonProduct} {l : AmazonProduct}
    (h : luxSelect tagFn used eP eBrand pool = some l) :
    l ∈ pool ∧ usedHas used (tagFn l.product_url) = false ∧
      ∀ e, eP = some e →
        plt (parsePrice e.product_price) (parsePrice l.product_price) = true := by
  unfold luxSelect at h
  simp only [] at h
  split at h
  · split at h
    · rename_i b hfb
      injection h with h2
      subst h2
      unfold luxFallback at hfb
      obtain ⟨h1, _, _⟩ := luxFallbackGo_max hfb
      rcases h1 with h1 | h1
      · cases h1
      · refine ⟨List.mem_reverse.mp h1.1, h1.2.1, ?_⟩
        intro e he
        subst he
        exact sepFail_false_plt h1.2.2.1
    · split at h
      · exact luxAbsolute_some h
      · rename_i l1 hstr
        injection h with h2
        subst h2
        unfold luxStrict at hstr
        rcases luxStrictGo_some hstr with h1 | h1
        · cases h1
        · refine ⟨List.mem_reverse.mp h1.1, h1.2.1, ?_⟩
          intro e he
          subst he
          exact sepFail_false_plt h1.2.2.2
  · unfold luxStrict at h
    rcases luxStrictGo_some h with h1 | h1
    · cases h1
    · refine ⟨List.mem_reverse.mp h1.1, h1.2.1, ?_⟩
      intro e he
      subst he
      exact sepFail_false_plt h1.2.2.2

end UStartKit


namespace UStartKit

/-- The premium price window forces a price strictly above essential. -/
theorem premPriceOk_gt_e {lP : Option AmazonProduct} {e P : AmazonProduct}
    (h : premPriceOk (some e) lP P = true) :
    plt (parsePrice e.product_price) (parsePrice P.product_price) = true := by
  unfold premPriceOk at h
  rw [Bool.and_eq_true] at h
  have h1 : (!ple (parsePrice P.product_price)
      (parsePrice e.product_price)) = true := h.1
  rw [Bool.not_eq_true'] at h1
  exact plt_of_not_ple (by simp [h1])

/-- The premium price window forces a price strictly below luxury. -/
theorem premPriceOk_lt_l {eP : Option AmazonProduct} {l P : AmazonProduct}
    (h : premPriceOk eP (some l) P = true) :
    plt (parsePrice P.product_price) (parsePrice l.product_price) = true := by
  unfold premPriceOk at h
  rw [Bool.and_eq_true] at h
  have h2 : (!ple (parsePrice l.product_price)
      (parsePrice P.product_price)) = true := h.2
  rw [Bool.not_eq_true'] at h2
  exact plt_of_not_ple (by simp [h2])

/-- C1 (amended): on the main selection path of the part_001 engine
(essential, premium, luxury chosen by `selTriple` and formatted in that
order), every pair of returned records with distinct tiers is ordered by
normalized price: the record of the lower tier rank is at most as
expensive as the record of the higher tier rank. The full pipeline does
not satisfy this invariant because the backfill path assigns tiers by
rating without a price check (`C1_counterexample`). -/
theorem C1_main_path_price_order (tagFn reasonOf : String → String)
    (pool : List AmazonProduct) (r s : FormattedProduct)
    (hr : r ∈ mainOutput tagFn reasonOf pool)
    (hs : s ∈ mainOutput tagFn reasonOf pool)
    (hrs : tierRank r.tier < tierRank s.tier) :
    ple (parsePrice r.price) (parsePrice s.price) = true := by
  have hsplit : ∀ {x : FormattedProduct}, x ∈ mainOutput tagFn reasonOf pool →
      (x ∈ pushFmt tagFn reasonOf Tier.essential (selTriple tagFn pool).1 ∨
        x ∈ pushFmt tagFn reasonOf Tier.premium (selTriple tagFn pool).2.1 ∨
        x ∈ pushFmt tagFn reasonOf Tier.luxury (selTriple tagFn pool).2.2) := by
    intro x hx
    have hx2 : x ∈ pushFmt tagFn reasonOf Tier.essential (selTriple tagFn pool).1 ++
        pushFmt tagFn reasonOf Tier.premium (selTriple tagFn pool).2.1 ++
        pushFmt tagFn reasonOf Tier.luxury (selTriple tagFn pool).2.2 := hx
    simpa [List.mem_append, or_assoc] using hx2
  rcases hsplit hr with hre | hrp | hrl <;>
    rcases hsplit hs with hse | hsp | hsl
  · obtain ⟨pr, hor, hfr⟩ := pushFmt_mem hre
    obtain ⟨ps, hos, hfs⟩ := pushFmt_mem hse
    rw [formatProductP1_some hfr, formatProductP1_some hfs] at hrs
    simp [tierRank] at hrs
  · obtain ⟨pr, hor, hfr⟩ := pushFmt_mem hre
    obtain ⟨ps, hos, hfs⟩ := pushFmt_mem hsp
    have h2 := @premSelect_some tagFn _ _ _ _ _ hos
    have hok : premPriceOk ((selTriple tagFn pool).1)
        ((selTriple tagFn pool).2.2) ps = true := h2.2
    rw [hor] at hok
    rw [formatProductP1_some hfr, formatProductP1_some hfs]
    exact plt_ple (premPriceOk_gt_e hok)
  · obtain ⟨pr, hor, hfr⟩ := pushFmt_mem hre
    obtain ⟨ps, hos, hfs⟩ := pushFmt_mem hsl
    have h3 := luxSelect_some hos
    have h3e : ∀ e0, (selTriple tagFn pool).1 = some e0 →
        plt (parsePrice e0.product_price) (parsePrice ps.product_price) = true :=
      h3.2.2
    rw [formatProductP1_some hfr, formatProductP1_some hfs]
    exact plt_ple (h3e pr hor)
  · obtain ⟨pr, hor, hfr⟩ := pushFmt_mem hrp
    obtain ⟨ps, hos, hfs⟩ := pushFmt_mem hse
    rw [formatProductP1_some hfr, formatProductP1_some hfs] at hrs
    simp [tierRank] at hrs
  · obtain ⟨pr, hor, hfr⟩ := pushFmt_mem hrp
    obtain ⟨ps, hos, hfs⟩ := pushFmt_mem hsp
    rw [formatProductP1_some hfr, formatProductP1_some hfs] at hrs
    simp [tierRank] at hrs
  · obtain ⟨pr, hor, hfr⟩ := pushFmt_mem hrp
    obtain ⟨ps, hos, hfs⟩ := pushFmt_mem hsl
    have h2 := @premSelect_some tagFn _ _ _ _ _ hor
    have hok : premPriceOk ((selTriple tagFn pool).1)
        ((selTriple tagFn pool).2.2) pr = true := h2.2
    rw [hos] at hok
    rw [formatProductP1_some hfr, formatProductP1_some hfs]
    exact plt_ple (premPriceOk_lt_l hok)
  · obtain ⟨pr, hor, hfr⟩ := pushFmt_mem hrl
    obtain ⟨ps, hos, hfs⟩ := pushFmt_mem hse
    rw [formatProductP1_some hfr, formatProductP1_some hfs] at hrs
    simp [tierRank] at hrs
  · obtain ⟨pr, hor, hfr⟩ := pushFmt_mem hrl
    obtain ⟨ps, hos, hfs⟩ := pushFmt_mem hsp
    rw [formatProductP1_some hfr, formatProductP1_some hfs] at hrs
    simp [tierRank] at hrs
  · obtain ⟨pr, hor, hfr⟩ := pushFmt_mem hrl
    obtain ⟨ps, hos, hfs⟩ := pushFmt_mem hsl
    rw [formatProductP1_some hfr, formatProductP1_some hfs] at hrs
    simp [tierRank] at hrs

/-- Concrete instantiation of the main-path ordering theorem: on the
three-candidate pool `poolW` the essential record (priced `$10`) and the
luxury record (priced `$40`) are produced and price-ordered. -/
theorem C1_witness :
    (⟨"aaa", "", "https://amazon.com/1", "ph", "$10", jn 45 1, 50,
        Tier.essential⟩ : FormattedProduct) ∈
      mainOutput idTag noReason poolW ∧
    (⟨"ccc", "", "https://amazon.com/3", "ph", "$40", jn 48 1, 100,
        Tier.luxury⟩ : FormattedProduct) ∈
      mainOutput idTag noReason poolW ∧
    tierRank Tier.essential < tierRank Tier.luxury ∧
    ple (parsePrice "$10") (parsePrice "$40") = true :=
  ⟨by decide, by decide, by decide,
    C1_main_path_price_order idTag noReason poolW
      ⟨"aaa", "", "https://amazon.com/1", "ph", "$10", jn 45 1, 50,
        Tier.essential⟩
      ⟨"ccc", "", "https://amazon.com/3", "ph", "$40", jn 48 1, 100,
        Tier.luxury⟩
      (by decide) (by decide) (by decide)⟩

end UStartKit

namespace UStartKit

theorem filter_getLast?_none {α : Type} {f : α → Bool} {l : List α}
    (h : (l.filter f).getLast? = none) {x : α} (hx : x ∈ l)
    (hfx : f x = true) : False := by
  have h2 := List.getLast?_eq_none_iff.mp h
  have h3 := List.mem_filter.mpr ⟨hx, hfx⟩
  rw [h2] at h3
  cases h3

/-- C4 (amended): the luxury tier of the part_001 engine. (1) Every
luxury pick is an unused pool member priced strictly above essential.
(2) The first relaxation (`bestFallbackLuxury`) keeps the `4.0` rating
floor and the `× 1.2` separation requirement, and returns a candidate of
maximal rating among those qualifying — not merely the highest-rated
candidate priced above essential as the spec claims. (3) The last
resort returns the most expensive unused candidate priced strictly
above essential, regardless of rating. (4) Luxury is never absent when
some unused candidate priced strictly above essential exists. -/
theorem C4_luxury_selection (tagFn : String → String) (used : List String)
    (eP : Option AmazonProduct) (eBrand : Option String)
    (pool : List AmazonProduct) :
    (∀ l, luxSelect tagFn used eP eBrand pool = some l →
      l ∈ pool ∧ usedHas used (tagFn l.product_url) = false ∧
        ∀ e, eP = some e →
          plt (parsePrice e.product_price) (parsePrice l.product_price) = true) ∧
    (∀ l, luxFallback tagFn used eP pool = some l →
      (l ∈ pool ∧ usedHas used (tagFn l.product_url) = false ∧
        sepFail eP l = false ∧ jle (jn 4 0) (ratingOr0 l) = true) ∧
      ∀ p ∈ pool, usedHas used (tagFn p.product_url) = false →
        sepFail eP p = false → jle (jn 4 0) (ratingOr0 p) = true →
        jle (ratingOr0 p) (ratingOr0 l) = true) ∧
    (List.Pairwise priceAsc pool →
      ∀ l, luxAbsolute tagFn used eP pool = some l →
        (l ∈ pool ∧ usedHas used (tagFn l.product_url) = false ∧
          ∀ e, eP = some e →
            plt (parsePrice e.product_price) (parsePrice l.product_price) = true) ∧
        ∀ p ∈ pool, usedHas used (tagFn p.product_url) = false →
          (∀ e, eP = some e →
            plt (parsePrice e.product_price) (parsePrice p.product_price) = true) →
          ple (parsePrice p.product_price) (parsePrice l.product_price) = true) ∧
    (∀ p ∈ pool, usedHas used (tagFn p.product_url) = false →
      (∀ e, eP = some e →
        plt (parsePrice e.product_price) (parsePrice p.product_price) = true) →
      luxSelect tagFn used eP eBrand pool ≠ none) := by
  refine ⟨fun l h => luxSelect_some h, ?_, ?_, ?_⟩
  · intro l h
    unfold luxFallback at h
    obtain ⟨h1, _, h3⟩ := luxFallbackGo_max h
    refine ⟨?_, ?_⟩
    · rcases h1 with h1 | h1
      · cases h1
      · exact ⟨List.mem_reverse.mp h1.1, h1.2⟩
    · intro p hp hpu hps hpr
      exact h3 p (List.mem_reverse.mpr hp) hpu hps hpr
  · intro hs l h
    exact ⟨luxAbsolute_some h, fun p hp hpu hpe =>
      luxAbsolute_max hs h hp hpu hpe⟩
  · intro p hp hpu hpe hc
    unfold luxSelect at hc
    simp only [] at hc
    split at hc
    · split at hc
      · cases hc
      · split at hc
        · exact filter_getLast?_none hc hp (by
            cases eP with
            | none => simp [hpu]
            | some e => simp [hpu, hpe e rfl])
        · cases hc
    · rename_i henter
      rw [hc] at henter
      exact henter rfl

end UStartKit

namespace UStartKit

/-- Concrete instantiation of the luxury-selection theorem on `poolW`
with the `$10` candidate as essential: the `$40` pick is an unused pool
member priced strictly above essential, and the selection is non-empty
because an unused candidate above essential exists. -/
theorem C4_witness :
    ((⟨"ccc", "ph", "$40", "https://amazon.com/3", "4.8", "100"⟩ :
        AmazonProduct) ∈ poolW ∧
      usedHas [] (idTag (⟨"ccc", "ph", "$40", "https://amazon.com/3",
        "4.8", "100"⟩ : AmazonProduct).product_url) = false ∧
      ∀ e, (some (⟨"aaa", "ph", "$10", "https://amazon.com/1", "4.5",
          "50"⟩ : AmazonProduct) : Option AmazonProduct) = some e →
        plt (parsePrice e.product_price)
          (parsePrice (⟨"ccc", "ph", "$40", "https://amazon.com/3",
            "4.8", "100"⟩ : AmazonProduct).product_price) = true) ∧
    luxSelect idTag []
      (some ⟨"aaa", "ph", "$10", "https://amazon.com/1", "4.5", "50"⟩)
      none poolW ≠ none :=
  ⟨(C4_luxury_selection idTag []
      (some ⟨"aaa", "ph", "$10", "https://amazon.com/1", "4.5", "50"⟩)
      none poolW).1
      ⟨"ccc", "ph", "$40", "https://amazon.com/3", "4.8", "100"⟩
      (by decide),
    (C4_luxury_selection idTag []
      (some ⟨"aaa", "ph", "$10", "https://amazon.com/1", "4.5", "50"⟩)
      none poolW).2.2.2
      ⟨"ccc", "ph", "$40", "https://amazon.com/3", "4.8", "100"⟩
      (by decide) (by decide) (by decide)⟩

end UStartKit

namespace UStartKit

theorem usedHas_false_iff {used : List String} {x : String} :
    usedHas used x = false ↔ x ∉ used := by
  unfold usedHas
  constructor
  · intro h hm
    have h2 := List.elem_eq_true_of_mem hm
    have h3 : used.contains x = true := h2
    rw [h] at h3
    cases h3
  · intro h
    cases hc : used.contains x with
    | false => rfl
    | true => exact absurd (List.mem_of_elem_eq_true hc) h

theorem linksNodup_iff : ∀ {ls : List String},
    linksNodup ls = true ↔ ls.Nodup := by
  intro ls
  induction ls with
  | nil => simp [linksNodup]
  | cons l rest ih =>
    unfold linksNodup
    rw [Bool.and_eq_true, Bool.not_eq_true', List.nodup_cons, ih]
    constructor
    · intro h
      exact ⟨usedHas_false_iff.mp h.1, h.2⟩
    · intro h
      exact ⟨usedHas_false_iff.mpr h.1, h.2⟩

/-- The luxury pick of `selTriple` never reuses the essential link. -/
theorem selTriple_lux_ne_ess {tagFn : String → String}
    {pool : List AmazonProduct} {l : AmazonProduct}
    (hl : (selTriple tagFn pool).2.2 = some l) :
    ∀ e, (selTriple tagFn pool).1 = some e →
      tagFn l.product_url ≠ tagFn e.product_url := by
  have h3 := luxSelect_some hl
  have hmid : usedHas ((match (selTriple tagFn pool).1 with
      | some p => [tagFn p.product_url]
      | none => []) : List String) (tagFn l.product_url) = false := h3.2.1
  intro e he
  rw [he] at hmid
  have hmid2 : usedHas [tagFn e.product_url] (tagFn l.product_url) = false :=
    hmid
  have hnm := usedHas_false_iff.mp hmid2
  simp at hnm
  exact hnm

/-- The premium pick of `selTriple` never reuses the essential or the
luxury link. -/
theorem selTriple_prem_fresh {tagFn : String → String}
    {pool : List AmazonProduct} {P : AmazonProduct}
    (hP : (selTriple tagFn pool).2.1 = some P) :
    (∀ e, (selTriple tagFn pool).1 = some e →
      tagFn P.product_url ≠ tagFn e.product_url) ∧
    (∀ l, (selTriple tagFn pool).2.2 = some l →
      tagFn P.product_url ≠ tagFn l.product_url) := by
  have h2 := @premSelect_some tagFn _ _ _ _ _ hP
  have hb : usedHas ((match (selTriple tagFn pool).2.2 with
      | some p => [tagFn p.product_url]
      | none => []) ++
      (match (selTriple tagFn pool).1 with
      | some p => [tagFn p.product_url]
      | none => [])) (tagFn P.product_url) = false := by
    have hb0 := (List.mem_filter.mp h2.1).2
    have hb1 : (!usedHas ((match (selTriple tagFn pool).2.2 with
        | some p => [tagFn p.product_url]
        | none => []) ++
        (match (selTriple tagFn pool).1 with
        | some p => [tagFn p.product_url]
        | none => [])) (tagFn P.product_url)) = true := hb0
    rw [Bool.not_eq_true'] at hb1
    exact hb1
  constructor
  · intro e he
    rw [he] at hb
    have hnm := usedHas_false_iff.mp hb
    rw [List.mem_append] at hnm
    intro hx
    apply hnm
    right
    show tagFn P.product_url ∈ [tagFn e.product_url]
    simp [hx]
  · intro l hl
    rw [hl] at hb
    have hnm := usedHas_false_iff.mp hb
    rw [List.mem_append] at hnm
    intro hx
    apply hnm
    left
    show tagFn P.product_url ∈ [tagFn l.product_url]
    simp [hx]

/-- Each tier segment of the main output holds at most one record, hence
duplicate-free links. -/
theorem pushFmt_links_nodup {tagFn reasonOf : String → String} {t : Tier}
    {o : Option AmazonProduct} :
    ((pushFmt tagFn reasonOf t o).map (fun f => f.link)).Nodup := by
  cases o with
  | none => simp [pushFmt]
  | some p =>
    cases hf : formatProductP1 tagFn p t (reasonOf p.product_title) with
    | some f =>
      have h2 : pushFmt tagFn reasonOf t (some p) = [f] := by
        unfold pushFmt
        show (match formatProductP1 tagFn p t (reasonOf p.product_title) with
          | some f => [f]
          | none => []) = [f]
        rw [hf]
      rw [h2]
      simp
    | none =>
      have h2 : pushFmt tagFn reasonOf t (some p) = [] := by
        unfold pushFmt
        show (match formatProductP1 tagFn p t (reasonOf p.product_title) with
          | some f => [f]
          | none => []) = ([] : List FormattedProduct)
        rw [hf]
      rw [h2]
      simp

/-- The links of the main-path output are pairwise distinct, with no
hypothesis on the pool: each selection explicitly skips the links already
consumed by the earlier tiers. -/
theorem mainOutput_links_nodup (tagFn reasonOf : String → String)
    (pool : List AmazonProduct) :
    ((mainOutput tagFn reasonOf pool).map (fun f => f.link)).Nodup := by
  have hM : mainOutput tagFn reasonOf pool =
      pushFmt tagFn reasonOf Tier.essential (selTriple tagFn pool).1 ++
        pushFmt tagFn reasonOf Tier.premium (selTriple tagFn pool).2.1 ++
        pushFmt tagFn reasonOf Tier.luxury (selTriple tagFn pool).2.2 := rfl
  rw [hM, List.map_append, List.map_append]
  refine List.Nodup.append (List.Nodup.append pushFmt_links_nodup
    pushFmt_links_nodup ?_) pushFmt_links_nodup ?_
  · intro x hxA hxB
    obtain ⟨rA, hrA, hxA2⟩ := List.mem_map.mp hxA
    obtain ⟨rB, hrB, hxB2⟩ := List.mem_map.mp hxB
    obtain ⟨pe, he, hfe⟩ := pushFmt_mem hrA
    obtain ⟨pP, hp, hfp⟩ := pushFmt_mem hrB
    rw [formatProductP1_some hfe] at hxA2
    rw [formatProductP1_some hfp] at hxB2
    exact (selTriple_prem_fresh hp).1 pe he (hxB2.trans hxA2.symm)
  · intro x hxAB hxC
    obtain ⟨rC, hrC, hxC2⟩ := List.mem_map.mp hxC
    obtain ⟨pl, hl, hfl⟩ := pushFmt_mem hrC
    rw [formatProductP1_some hfl] at hxC2
    rcases List.mem_append.mp hxAB with hxA | hxB
    · obtain ⟨rA, hrA, hxA2⟩ := List.mem_map.mp hxA
      obtain ⟨pe, he, hfe⟩ := pushFmt_mem hrA
      rw [formatProductP1_some hfe] at hxA2
      exact selTriple_lux_ne_ess hl pe he (hxC2.trans hxA2.symm)
    · obtain ⟨rB, hrB, hxB2⟩ := List.mem_map.mp hxB
      obtain ⟨pP, hp, hfp⟩ := pushFmt_mem hrB
      rw [formatProductP1_some hfp] at hxB2
      exact (selTriple_prem_fresh hp).2 pl hl (hxB2.trans hxC2.symm)

end UStartKit

namespace UStartKit

/-- Invariant of the backfill loop: if the accumulated links are
duplicate-free, the fill candidates have pairwise-distinct tagged urls
and none of them collides with an accumulated link, then the loop keeps
the links duplicate-free. -/
theorem backfillGo_links_nodup {tagFn reasonOf : String → String} :
    ∀ {ts : List Tier} {fill : List AmazonProduct}
      {acc : List FormattedProduct} {present : List Tier},
      (acc.map (fun f => f.link)).Nodup →
      (fill.map (fun c => tagFn c.product_url)).Nodup →
      (∀ c ∈ fill, tagFn c.product_url ∉ acc.map (fun f => f.link)) →
      ((backfillGo tagFn reasonOf ts fill acc present).map
        (fun f => f.link)).Nodup := by
  intro ts
  induction ts with
  | nil =>
    intro fill acc present hacc _ _
    exact hacc
  | cons t ts ih =>
    intro fill acc present hacc hfill hfresh
    unfold backfillGo
    split
    · exact hacc
    · split
      · exact ih hacc hfill hfresh
      · split
        · exact ih hacc (by simp) (by simp)
        · rename_i c fillRest
          split
          · rename_i f hf
            rw [List.map_cons, List.nodup_cons] at hfill
            refine ih ?_ hfill.2 ?_
            · rw [List.map_append]
              refine List.Nodup.append hacc (by simp) ?_
              intro x hx hx2
              rw [List.map_singleton, List.mem_singleton] at hx2
              subst hx2
              rw [formatProductP1_some hf] at hx
              exact hfresh c (List.mem_cons_self _ _) hx
            · intro c2 hc2
              rw [List.map_append, List.mem_append]
              intro hmem
              rcases hmem with hmem | hmem
              · exact hfresh c2 (List.mem_cons_of_mem c hc2) hmem
              · rw [formatProductP1_some hf, List.map_singleton,
                  List.mem_singleton] at hmem
                have hmem2 : tagFn c2.product_url = tagFn c.product_url := hmem
                exact hfill.1 (hmem2 ▸ List.mem_map_of_mem
                  (fun c => tagFn c.product_url) hc2)
          · rw [List.map_cons, List.nodup_cons] at hfill
            exact ih hacc hfill.2
              (fun c2 hc2 => hfresh c2 (List.mem_cons_of_mem c hc2))

/-- The backfill stage preserves duplicate-free links provided the pool's
tagged urls are pairwise distinct. -/
theorem backfill_links_nodup {tagFn reasonOf : String → String}
    {pool : List AmazonProduct} {acc : List FormattedProduct}
    (hacc : (acc.map (fun f => f.link)).Nodup)
    (hpool : (pool.map (fun p => tagFn p.product_url)).Nodup) :
    ((backfill tagFn reasonOf pool acc).map (fun f => f.link)).Nodup := by
  unfold backfill
  split
  · simp only []
    refine backfillGo_links_nodup hacc ?_ ?_
    · rw [((List.perm_insertionSort ratingDesc _).map
        (fun c => tagFn c.product_url)).nodup_iff]
      exact List.Nodup.sublist
        ((List.filter_sublist pool).map (fun c => tagFn c.product_url))
        hpool
    · intro c hc
      rw [(List.perm_insertionSort ratingDesc _).mem_iff,
        List.mem_filter] at hc
      have hb : (!usedHas (acc.map (fun f => f.link))
          (tagFn c.product_url)) = true := hc.2
      rw [Bool.not_eq_true'] at hb
      exact usedHas_false_iff.mp hb
  · exact hacc

/-- Every record the aggregator keeps has a link outside the seen set. -/
theorem dedupeByLink_not_seen :
    ∀ {xs : List FormattedProduct} {seen : List String}
      {f : FormattedProduct}, f ∈ dedupeByLink seen xs → f.link ∉ seen := by
  intro xs
  induction xs with
  | nil =>
    intro seen f h
    cases h
  | cons p rest ih =>
    intro seen f h
    unfold dedupeByLink at h
    split at h
    · exact ih h
    · split at h
      · exact ih h
      · rename_i hns
        rcases List.mem_cons.mp h with rfl | h2
        · intro hm
          exact hns (List.elem_eq_true_of_mem hm)
        · intro hm
          exact (ih h2) (List.mem_cons_of_mem _ hm)

/-- The aggregator's output links are pairwise distinct. -/
theorem dedupeByLink_links_nodup :
    ∀ (xs : List FormattedProduct) (seen : List String),
      ((dedupeByLink seen xs).map (fun f => f.link)).Nodup := by
  intro xs
  induction xs with
  | nil =>
    intro seen
    simp [dedupeByLink]
  | cons p rest ih =>
    intro seen
    unfold dedupeByLink
    split
    · exact ih seen
    · split
      · exact ih seen
      · rw [List.map_cons, List.nodup_cons]
        refine ⟨?_, ih (p.link :: seen)⟩
        intro hm
        obtain ⟨g, hg, hg2⟩ := List.mem_map.mp hm
        exact dedupeByLink_not_seen hg (hg2 ▸ List.mem_cons_self _ _)

/-- The aggregator only drops records: its output is a sublist of its
input. -/
theorem dedupeByLink_sublist :
    ∀ (xs : List FormattedProduct) (seen : List String),
      (dedupeByLink seen xs).Sublist xs := by
  intro xs
  induction xs with
  | nil =>
    intro seen
    simp [dedupeByLink]
  | cons p rest ih =>
    intro seen
    unfold dedupeByLink
    split
    · exact (ih seen).cons p
    · split
      · exact (ih seen).cons p
      · exact (ih (p.link :: seen)).cons₂ p

/-- First occurrence wins: a record whose link is non-empty, not yet
seen, and not shared by any earlier record survives the aggregator. -/
theorem dedupeByLink_first :
    ∀ (pre : List FormattedProduct) (seen : List String)
      (y : FormattedProduct) (post : List FormattedProduct),
      y.link ≠ "" → y.link ∉ seen → (∀ z ∈ pre, z.link ≠ y.link) →
      y ∈ dedupeByLink seen (pre ++ y :: post) := by
  intro pre
  induction pre with
  | nil =>
    intro seen y post hy hseen _
    show y ∈ dedupeByLink seen (y :: post)
    unfold dedupeByLink
    show y ∈ (if y.link = "" then dedupeByLink seen post
      else if seen.contains y.link = true then dedupeByLink seen post
      else y :: dedupeByLink (y.link :: seen) post)
    rw [if_neg hy]
    have hc : seen.contains y.link = false := usedHas_false_iff.mpr hseen
    rw [hc]
    simp only [Bool.false_eq_true, if_false]
    exact List.mem_cons_self _ _
  | cons z pre ih =>
    intro seen y post hy hseen hpre
    have hzy : z.link ≠ y.link := hpre z (List.mem_cons_self _ _)
    have hpre2 : ∀ w ∈ pre, w.link ≠ y.link :=
      fun w hw => hpre w (List.mem_cons_of_mem z hw)
    show y ∈ dedupeByLink seen (z :: (pre ++ y :: post))
    unfold dedupeByLink
    show y ∈ (if z.link = "" then dedupeByLink seen (pre ++ y :: post)
      else if seen.contains z.link = true then
        dedupeByLink seen (pre ++ y :: post)
      else z :: dedupeByLink (z.link :: seen) (pre ++ y :: post))
    split
    · exact ih seen y post hy hseen hpre2
    · split
      · exact ih seen y post hy hseen hpre2
      · refine List.mem_cons_of_mem z ?_
        refine ih (z.link :: seen) y post hy ?_ hpre2
        intro hm
        rcases List.mem_cons.mp hm with h2 | h2
        · exact hzy h2.symm
        · exact hseen h2

end UStartKit

namespace UStartKit

/-- C2 (amended): (1) within one category, the part_001 pipeline emits
pairwise-distinct links whenever the candidate pool's rewritten urls are
pairwise distinct (when the pool repeats a url, the backfill path can
emit duplicates — `C2_counterexample`); (2) the cross-category
aggregator (`uniqueProductsMap` of api.ts) emits pairwise-distinct links
and only drops records; (3) the first record carrying a given non-empty
link always survives the aggregator. -/
theorem C2_dedup :
    (∀ (tagFn reasonOf : String → String) (cand : List AmazonProduct),
      (cand.map (fun p => tagFn p.product_url)).Nodup →
      linksNodup ((pipelineP1 tagFn reasonOf cand).map (fun f => f.link)) =
        true) ∧
    (∀ xs : List FormattedProduct,
      ((dedupeByLink [] xs).map (fun f => f.link)).Nodup ∧
      (dedupeByLink [] xs).Sublist xs) ∧
    (∀ (pre post : List FormattedProduct) (y : FormattedProduct),
      y.link ≠ "" → (∀ z ∈ pre, z.link ≠ y.link) →
      y ∈ dedupeByLink [] (pre ++ y :: post)) := by
  refine ⟨?_, ?_, ?_⟩
  · intro tagFn reasonOf cand hc
    rw [linksNodup_iff]
    unfold pipelineP1
    simp only []
    split
    · simp
    · rw [((List.perm_insertionSort finalOrd _).map
        (fun f => f.link)).nodup_iff]
      refine backfill_links_nodup (mainOutput_links_nodup _ _ _) ?_
      unfold suitablePool
      simp only []
      rw [((List.perm_insertionSort priceAsc _).map
        (fun p => tagFn p.product_url)).nodup_iff]
      exact List.Nodup.sublist
        (List.Sublist.map (fun p : AmazonProduct => tagFn p.product_url)
          ((List.filter_sublist _).trans (List.filter_sublist _))) hc
  · intro xs
    exact ⟨dedupeByLink_links_nodup xs [], dedupeByLink_sublist xs []⟩
  · intro pre post y hy hpre
    exact dedupeByLink_first pre [] y post hy (by simp) hpre

end UStartKit

namespace UStartKit

/-- Concrete instantiation of the dedup theorem: the three-candidate pool
`poolW` has distinct urls and the pipeline's links come out
duplicate-free; a second-position record with a fresh link survives the
aggregator. -/
theorem C2_witness :
    (poolW.map (fun p => idTag p.product_url)).Nodup ∧
    linksNodup ((pipelineP1 idTag noReason poolW).map (fun f => f.link)) =
      true ∧
    (⟨"n2", "", "L2", "i", "$2", jn 0 0, 0, Tier.premium⟩ :
        FormattedProduct) ∈
      dedupeByLink []
        ([⟨"n1", "", "L1", "i", "$1", jn 0 0, 0, Tier.essential⟩] ++
          (⟨"n2", "", "L2", "i", "$2", jn 0 0, 0, Tier.premium⟩ :
            FormattedProduct) :: []) :=
  ⟨by decide,
    C2_dedup.1 idTag noReason poolW (by decide),
    C2_dedup.2.2 [⟨"n1", "", "L1", "i", "$1", jn 0 0, 0, Tier.essential⟩] []
      ⟨"n2", "", "L2", "i", "$2", jn 0 0, 0, Tier.premium⟩
      (by decide) (by decide)⟩

end UStartKit
